import Mathlib

/-!
# Coincheck REST client: request signing, request construction, envelope checks

A shallow embedding of `coincheck.go` and `public-api.go` (package `coincheck`).

* Go `string` and `[]byte` values are byte sequences (`GoString`, `Bytes`).
* `crypto/sha256`, `crypto/hmac` and `encoding/hex` are embedded as executable
  functions: the streaming digest (`digest.Write`, `digest.Sum`) next to the
  one-shot functions of FIPS 180-4 and RFC 2104 it is compared with.
* `net/url`, `net/http`, `path` and `strconv`: the parts the client calls.
* What the client cannot compute by itself (the wall clock, the text of a URL,
  URL parsing, the HTTP transport, JSON decoding) is passed in explicitly.
* A function that returns `(*T, error)` with exactly one of the two set returns
  `Except GoError T`. Contexts, logging and the closing of response bodies do not
  change what the functions return and are left out.
-/

set_option autoImplicit false

namespace Coincheck

/-! ## Bytes and strings -/

/-- Go `[]byte`. -/
abbrev Bytes := List UInt8

/-- Go `string`: an immutable byte sequence. -/
abbrev GoString := List UInt8

/-- Go string literal with ASCII content. -/
def str (s : String) : GoString := s.toList.map (fun c => UInt8.ofNat c.toNat)

/-! ## crypto/sha256 -/

namespace sha256

/-- Round constants of SHA-256 (`_K` in `sha256block.go`). -/
def K : List Nat :=
  [0x428a2f98, 0x71374491, 0xb5c0fbcf, 0xe9b5dba5, 0x3956c25b, 0x59f111f1, 0x923f82a4, 0xab1c5ed5,
   0xd807aa98, 0x12835b01, 0x243185be, 0x550c7dc3, 0x72be5d74, 0x80deb1fe, 0x9bdc06a7, 0xc19bf174,
   0xe49b69c1, 0xefbe4786, 0x0fc19dc6, 0x240ca1cc, 0x2de92c6f, 0x4a7484aa, 0x5cb0a9dc, 0x76f988da,
   0x983e5152, 0xa831c66d, 0xb00327c8, 0xbf597fc7, 0xc6e00bf3, 0xd5a79147, 0x06ca6351, 0x14292967,
   0x27b70a85, 0x2e1b2138, 0x4d2c6dfc, 0x53380d13, 0x650a7354, 0x766a0abb, 0x81c2c92e, 0x92722c85,
   0xa2bfe8a1, 0xa81a664b, 0xc24b8b70, 0xc76c51a3, 0xd192e819, 0xd6990624, 0xf40e3585, 0x106aa070,
   0x19a4c116, 0x1e376c08, 0x2748774c, 0x34b0bcb5, 0x391c0cb3, 0x4ed8aa4a, 0x5b9cca4f, 0x682e6ff3,
   0x748f82ee, 0x78a5636f, 0x84c87814, 0x8cc70208, 0x90befffa, 0xa4506ceb, 0xbef9a3f7, 0xc67178f2]

/-- Block size in bytes (`BlockSize`, `chunk`). -/
def chunk : Nat := 64

/-- Truncation to `uint32`. -/
def w32 (x : Nat) : Nat := x % 4294967296

/-- Rotate a `uint32` right by `n` bits (`bits.RotateLeft32(x, -n)`). -/
def rotr (x n : Nat) : Nat := w32 ((x >>> n) ||| (x <<< (32 - n)))

/-- Big-endian `uint32` from four bytes. -/
def be32 (b0 b1 b2 b3 : UInt8) : Nat :=
  b0.toNat <<< 24 ||| b1.toNat <<< 16 ||| b2.toNat <<< 8 ||| b3.toNat

/-- The words of a byte sequence, four bytes each, big-endian. -/
def words : Bytes → List Nat
  | b0 :: b1 :: b2 :: b3 :: rest => be32 b0 b1 b2 b3 :: words rest
  | _ => []

/-- The 64 message-schedule words, from a sliding window of the last sixteen. -/
def schedule : Nat → List Nat → List Nat
  | 0, _ => []
  | n + 1, win =>
    let w0 := win.getD 0 0
    let w1 := win.getD 1 0
    let w9 := win.getD 9 0
    let w14 := win.getD 14 0
    let s0 := rotr w1 7 ^^^ rotr w1 18 ^^^ (w1 >>> 3)
    let s1 := rotr w14 17 ^^^ rotr w14 19 ^^^ (w14 >>> 10)
    w0 :: schedule n (win.drop 1 ++ [w32 (s1 + w9 + s0 + w0)])

/-- The eight words of a chaining value `h[0..7]`, also the working variables `a` .. `h`. -/
structure Vars where
  a : Nat
  b : Nat
  c : Nat
  d : Nat
  e : Nat
  f : Nat
  g : Nat
  h : Nat
  deriving DecidableEq

/-- Initial chaining value (`init0` .. `init7`). -/
def init : Vars :=
  { a := 0x6a09e667, b := 0xbb67ae85, c := 0x3c6ef372, d := 0xa54ff53a,
    e := 0x510e527f, f := 0x9b05688c, g := 0x1f83d9ab, h := 0x5be0cd19 }

/-- One of the 64 rounds, with round constant `kw.1` and schedule word `kw.2`. -/
def round (v : Vars) (kw : Nat × Nat) : Vars :=
  let t1 := v.h + (rotr v.e 6 ^^^ rotr v.e 11 ^^^ rotr v.e 25)
    + ((v.e &&& v.f) ^^^ ((v.e ^^^ 4294967295) &&& v.g)) + kw.1 + kw.2
  let t2 := (rotr v.a 2 ^^^ rotr v.a 13 ^^^ rotr v.a 22)
    + ((v.a &&& v.b) ^^^ (v.a &&& v.c) ^^^ (v.b &&& v.c))
  { a := w32 (t1 + t2), b := v.a, c := v.b, d := v.c,
    e := w32 (v.d + t1), f := v.e, g := v.f, h := v.g }

/-- The compression of one 64-byte chunk into the chaining value. -/
def blockOne (h : Vars) (p : Bytes) : Vars :=
  let v := (K.zip (schedule 64 (words p))).foldl round h
  { a := w32 (h.a + v.a), b := w32 (h.b + v.b), c := w32 (h.c + v.c), d := w32 (h.d + v.d),
    e := w32 (h.e + v.e), f := w32 (h.f + v.f), g := w32 (h.g + v.g), h := w32 (h.h + v.h) }

/-- Go `block(dig, p)`: `for len(p) >= chunk { ...; p = p[chunk:] }`, the chaining value after
every full chunk of `p`, with the bytes after the last full chunk. The first argument bounds the
number of iterations; `p.length / 64` is enough. -/
def blockLoop : Nat → Vars → Bytes → Vars × Bytes
  | 0, h, p => (h, p)
  | n + 1, h, p =>
    if p.length < chunk then (h, p) else blockLoop n (blockOne h (p.take chunk)) (p.drop chunk)

/-- Go `block(dig, p)`. -/
def block (h : Vars) (p : Bytes) : Vars := (blockLoop (p.length / chunk) h p).1

/-- Big-endian bytes of a `uint32`. -/
def put32 (x : Nat) : Bytes :=
  [UInt8.ofNat (x >>> 24), UInt8.ofNat (x >>> 16), UInt8.ofNat (x >>> 8), UInt8.ofNat x]

/-- Big-endian bytes of a `uint64`. -/
def put64 (x : Nat) : Bytes := put32 (w32 (x >>> 32)) ++ put32 (w32 x)

/-- The 32 bytes of a chaining value. -/
def Vars.bytes (v : Vars) : Bytes :=
  put32 v.a ++ put32 v.b ++ put32 v.c ++ put32 v.d ++ put32 v.e ++ put32 v.f ++ put32 v.g ++
    put32 v.h

/-- The padding Go `checkSum` writes after a message of `len` bytes (`len` is a `uint64`):
`0x80`, zeros up to 56 modulo 64, then the bit length as a big-endian `uint64`. -/
def padding (len : Nat) : Bytes :=
  let t := if len % 64 < 56 then 56 - len % 64 else 64 + 56 - len % 64
  (UInt8.ofNat 128 :: List.replicate (t - 1) (UInt8.ofNat 0)) ++
    put64 ((len <<< 3) % 18446744073709551616)

/-- Go `sha256.digest`: chaining value `h`, the pending bytes `x[:nx]`, and the `uint64`
count `len` of bytes written. -/
structure digest where
  h : Vars
  x : Bytes
  len : Nat
  deriving DecidableEq

/-- Go `sha256.New()` (`Reset`). -/
def New : digest := { h := init, x := [], len := 0 }

/-- Go `(*digest).Write`. -/
def digest.Write (d : digest) (p : Bytes) : digest :=
  let len := (d.len + p.length) % 18446744073709551616
  -- if d.nx > 0 { n := copy(d.x[d.nx:], p); d.nx += n; if d.nx == chunk {...}; p = p[n:] }
  let n := min (chunk - d.x.length) p.length
  let x1 := if d.x.length > 0 then d.x ++ p.take n else d.x
  let p1 := if d.x.length > 0 then p.drop n else p
  let h1 := if d.x.length > 0 ∧ x1.length = chunk then blockOne d.h x1 else d.h
  let x2 := if d.x.length > 0 ∧ x1.length = chunk then [] else x1
  -- if len(p) >= chunk { n := len(p) &^ (chunk - 1); block(d, p[:n]); p = p[n:] }
  let m := p1.length / chunk * chunk
  let h2 := if p1.length ≥ chunk then block h1 (p1.take m) else h1
  let p2 := if p1.length ≥ chunk then p1.drop m else p1
  -- if len(p) > 0 { d.nx = copy(d.x[:], p) }
  let x3 := if p2.length > 0 then p2 else x2
  { h := h2, x := x3, len := len }

/-- Go `(*digest).Sum(nil)`: the digest of what was written, from a copy of the state. -/
def digest.Sum (d : digest) : Bytes := (d.Write (padding d.len)).h.bytes

/-- SHA-256 of FIPS 180-4 as a function of the whole message: pad, cut into 64-byte chunks,
compress each into the chaining value. -/
def hash (m : Bytes) : Bytes :=
  let padded := m ++ padding (m.length % 18446744073709551616)
  (blockLoop (padded.length / chunk) init padded).1.bytes

end sha256

/-! ## crypto/hmac and encoding/hex -/

/-- Go `hmac` with SHA-256 as the hash: the two pads and the two running digests. -/
structure hmac where
  opad : Bytes
  ipad : Bytes
  outer : sha256.digest
  inner : sha256.digest
  deriving DecidableEq

/-- The key block of HMAC: a key longer than a block is hashed first, then the key is
zero-filled to the block size (`copy(hm.ipad, key)` into a fresh block). -/
def hmac.keyBlock (hashed : Bytes) (key : Bytes) : Bytes :=
  let k := if key.length > sha256.chunk then hashed else key
  k ++ List.replicate (sha256.chunk - k.length) (UInt8.ofNat 0)

/-- Go `hmac.New(sha256.New, key)`. -/
def hmac.New (key : Bytes) : hmac :=
  let outer := if key.length > sha256.chunk then sha256.New.Write key else sha256.New
  let block := hmac.keyBlock outer.Sum key
  let ipad := block.map (fun b => b ^^^ UInt8.ofNat 0x36)
  let opad := block.map (fun b => b ^^^ UInt8.ofNat 0x5c)
  { opad := opad, ipad := ipad, outer := outer, inner := sha256.New.Write ipad }

/-- Go `(*hmac).Write`: `h.inner.Write(p)`. -/
def hmac.Write (h : hmac) (p : Bytes) : hmac := { h with inner := h.inner.Write p }

/-- Go `(*hmac).Sum(nil)`: the inner digest, then the outer digest, reset, over `opad` and the
inner digest. -/
def hmac.Sum (h : hmac) : Bytes :=
  let inner := h.inner.Sum
  let outer := sha256.New.Write h.opad
  (outer.Write inner).Sum

/-- HMAC-SHA256 of RFC 2104 as a function of key and message:
`H((K0 xor opad) ++ H((K0 xor ipad) ++ msg))`. -/
def hmacSHA256 (key msg : Bytes) : Bytes :=
  let block := hmac.keyBlock (sha256.hash key) key
  sha256.hash (block.map (fun b => b ^^^ UInt8.ofNat 0x5c) ++
    sha256.hash (block.map (fun b => b ^^^ UInt8.ofNat 0x36) ++ msg))

namespace hex

/-- Go `hextable`. -/
def hextable : GoString := str "0123456789abcdef"

/-- Go `hex.EncodeToString`: two lowercase hexadecimal digits per byte, high nibble first. -/
def EncodeToString : Bytes → GoString
  | [] => []
  | v :: rest =>
    hextable.getD (v.toNat >>> 4) 0 :: hextable.getD (v.toNat &&& 0x0f) 0 :: EncodeToString rest

end hex

/-! ## Errors -/

/-- Go `error`, by its message (`Error()`). -/
structure GoError where
  msg : GoString
  deriving DecidableEq

/-- Go `errors.New`. -/
def errors.New (text : GoString) : GoError := { msg := text }

/-! ## strconv -/

namespace strconv

/-- The ASCII digit of `d < 10`. -/
def digit (d : Nat) : UInt8 := UInt8.ofNat (48 + d)

/-- Go `formatBits` for base 10: the decimal digits of `u`, most significant first, written in
front of `acc`. The first argument bounds the number of digits; `u + 1` is enough. -/
def formatBits : Nat → Nat → GoString → GoString
  | 0, _, acc => acc
  | n + 1, u, acc =>
    if u < 10 then digit u :: acc else formatBits n (u / 10) (digit (u % 10) :: acc)

/-- Go `strconv.FormatInt(i, 10)`. -/
def FormatInt (i : Int) : GoString :=
  if i < 0 then UInt8.ofNat 45 :: formatBits (i.natAbs + 1) i.natAbs []
  else formatBits (i.natAbs + 1) i.natAbs []

/-- The number a sequence of ASCII digits denotes in base 10, after `acc`. -/
def readDigits (acc : Nat) : GoString → Nat
  | [] => acc
  | c :: rest => readDigits (acc * 10 + (c.toNat - 48)) rest

/-- A decimal numeral, with an optional leading minus sign, read as an integer. -/
def readDecimal : GoString → Int
  | [] => 0
  | c :: rest => if c = UInt8.ofNat 45 then - (readDigits 0 rest : Int) else readDigits 0 (c :: rest)

end strconv

/-! ## path -/

namespace path

/-- The byte `/`. -/
def slash : UInt8 := UInt8.ofNat 47

/-- The byte `.`. -/
def dot : UInt8 := UInt8.ofNat 46

/-- The `..` case of Go `path.Clean` when `out.w > dotdot`: drop the last byte, then keep
dropping while `out.w > dotdot` and the byte just dropped is not `/`. The buffer is held
reversed, last byte first. -/
def backup (dotdot : Nat) : List UInt8 → List UInt8
  | [] => []
  | c :: out => if out.length > dotdot ∧ c ≠ slash then backup dotdot out else out

/-- The loop of Go `path.Clean` over the unread bytes `rest`, with the buffer `out` (reversed)
and the index `dotdot`. The first argument bounds the number of iterations; the length of
`rest` is enough. -/
def cleanLoop (rooted : Bool) : Nat → List UInt8 → List UInt8 → Nat → List UInt8
  | 0, _, out, _ => out
  | n + 1, rest, out, dotdot =>
    match rest with
    | [] => out
    | c :: t =>
      if c = slash then cleanLoop rooted n t out dotdot
      else if c = dot ∧ (t = [] ∨ t.head? = some slash) then cleanLoop rooted n t out dotdot
      else if c = dot ∧ t.head? = some dot ∧ (t.tail = [] ∨ t.tail.head? = some slash) then
        if out.length > dotdot then cleanLoop rooted n t.tail (backup dotdot out) dotdot
        else if !rooted then
          let out := if out.length > 0 then slash :: out else out
          let out := dot :: dot :: out
          cleanLoop rooted n t.tail out out.length
        else cleanLoop rooted n t.tail out dotdot
      else
        let out := if (rooted ∧ out.length ≠ 1) ∨ (!rooted ∧ out.length ≠ 0) then slash :: out
          else out
        let seg := (c :: t).takeWhile (fun b => b != slash)
        cleanLoop rooted n ((c :: t).dropWhile (fun b => b != slash)) (seg.reverse ++ out) dotdot

/-- Go `path.Clean`. -/
def Clean (p : GoString) : GoString :=
  if p = [] then [dot]
  else
    let rooted := p.head? = some slash
    let out := if rooted then
        (cleanLoop true p.length (p.drop 1) [slash] 1).reverse
      else (cleanLoop false p.length p [] 0).reverse
    if out = [] then [dot] else out

/-- The loop of Go `path.Join` that puts the non-empty elements together with `/` between. -/
def joinLoop (buf : GoString) : List GoString → GoString
  | [] => buf
  | e :: rest =>
    if buf.length > 0 ∨ e ≠ [] then
      joinLoop ((if buf.length > 0 then buf ++ [slash] else buf) ++ e) rest
    else joinLoop buf rest

/-- Go `path.Join`. -/
def Join (elem : List GoString) : GoString :=
  if (elem.map List.length).sum = 0 then [] else Clean (joinLoop [] elem)

end path

/-! ## net/url -/

namespace url

/-- Go `url.Values`, a `map[string][]string`: one entry per key, the key's values in the order
they were added. -/
abbrev Values := List (GoString × List GoString)

/-- Go `v[key]`: the values of a key, `nil` when the key is absent. -/
def Values.lookup : Values → GoString → List GoString
  | [], _ => []
  | (k, vs) :: rest, key => if k = key then vs else Values.lookup rest key

/-- The keys of the map. -/
def Values.keys (v : Values) : List GoString := v.map Prod.fst

/-- Go `Values.Add`: `v[key] = append(v[key], value)`. -/
def Values.Add : Values → GoString → GoString → Values
  | [], key, value => [(key, [value])]
  | (k, vs) :: rest, key, value =>
    if k = key then (k, vs ++ [value]) :: rest else (k, vs) :: Values.Add rest key value

/-- Go `shouldEscape(c, encodeQueryComponent)`: everything but the unreserved characters
(letters, digits, `-`, `_`, `.`, `~`). -/
def shouldEscape (c : UInt8) : Bool :=
  let n := c.toNat
  !((97 ≤ n ∧ n ≤ 122) ∨ (65 ≤ n ∧ n ≤ 90) ∨ (48 ≤ n ∧ n ≤ 57) ∨
    n = 45 ∨ n = 95 ∨ n = 46 ∨ n = 126)

/-- Go `upperhex`. -/
def upperhex : GoString := str "0123456789ABCDEF"

/-- Go `url.QueryEscape`: a space becomes `+`, a byte to escape becomes `%XX`. -/
def QueryEscape : GoString → GoString
  | [] => []
  | c :: rest =>
    if c = UInt8.ofNat 32 then UInt8.ofNat 43 :: QueryEscape rest
    else if shouldEscape c then
      UInt8.ofNat 37 :: upperhex.getD (c.toNat >>> 4) 0 :: upperhex.getD (c.toNat &&& 15) 0 ::
        QueryEscape rest
    else c :: QueryEscape rest

/-- Byte-wise lexicographic order of Go strings (`<` on `string`). -/
def strLt : GoString → GoString → Bool
  | _, [] => false
  | [], _ :: _ => true
  | a :: as, b :: bs => a.toNat < b.toNat || (a = b && strLt as bs)

/-- Insertion of a key into a sorted list of keys. -/
def insertKey (k : GoString) : List GoString → List GoString
  | [] => [k]
  | a :: rest => if strLt a k then a :: insertKey k rest else k :: a :: rest

/-- Go `slices.Sort(keys)`. -/
def sortKeys (keys : List GoString) : List GoString := keys.foldr insertKey []

/-- The inner loop of Go `Values.Encode`: `key=value` for each value of one key, each after a
`&` when the buffer is not empty. -/
def encodeKey (keyEscaped : GoString) (buf : GoString) : List GoString → GoString
  | [] => buf
  | v :: vs =>
    encodeKey keyEscaped
      ((if buf.length > 0 then buf ++ [UInt8.ofNat 38] else buf) ++ keyEscaped ++
        [UInt8.ofNat 61] ++ QueryEscape v) vs

/-- Go `Values.Encode`: the URL-encoded form, sorted by key. -/
def Values.Encode (v : Values) : GoString :=
  (sortKeys v.keys).foldl (fun buf k => encodeKey (QueryEscape k) buf (v.lookup k)) []

/-- Go `url.Userinfo`. -/
structure Userinfo where
  username : GoString
  password : GoString
  passwordSet : Bool
  deriving DecidableEq

/-- Go `url.URL`. -/
structure URL where
  Scheme : GoString
  Opaque : GoString
  User : Option Userinfo
  Host : GoString
  Path : GoString
  RawPath : GoString
  OmitHost : Bool
  ForceQuery : Bool
  RawQuery : GoString
  Fragment : GoString
  RawFragment : GoString
  deriving DecidableEq

end url

/-! ## io -/

/-- Go `io.Reader`, by what it has still to deliver: a source of bytes, or the reader
`io.TeeReader(r, w)` with the bytes written so far to its buffer `w`. -/
inductive Reader where
  | bytes (unread : Bytes)
  | tee (r : Reader) (w : Bytes)
  deriving DecidableEq

/-- Go `Read` with room for `n` bytes: the bytes read and the reader afterwards. A tee reader
writes what it reads to its buffer. -/
def Reader.Read : Reader → Nat → Bytes × Reader
  | .bytes unread, n => (unread.take n, .bytes (unread.drop n))
  | .tee r w, n =>
    let res := r.Read n
    (res.1, .tee res.2 (w ++ res.1))

/-! ## net/http -/

namespace http

/-- Go `http.Header`, a `map[string][]string`. -/
abbrev Header := List (GoString × List GoString)

/-- Go `httpguts.IsTokenRune` on a byte (`validHeaderFieldByte`): the `tchar` of RFC 7230. -/
def isToken (c : UInt8) : Bool :=
  let n := c.toNat
  (97 ≤ n ∧ n ≤ 122) ∨ (65 ≤ n ∧ n ≤ 90) ∨ (48 ≤ n ∧ n ≤ 57) ∨
    n ∈ [33, 35, 36, 37, 38, 39, 42, 43, 45, 46, 94, 95, 96, 124, 126]

/-- The second loop of Go `canonicalMIMEHeaderKey`: upper case at the start and after `-`,
lower case elsewhere. -/
def canonLoop (upper : Bool) : GoString → GoString
  | [] => []
  | c :: rest =>
    let c := if upper ∧ 97 ≤ c.toNat ∧ c.toNat ≤ 122 then UInt8.ofNat (c.toNat - 32)
      else if !upper ∧ 65 ≤ c.toNat ∧ c.toNat ≤ 90 then UInt8.ofNat (c.toNat + 32)
      else c
    c :: canonLoop (c = UInt8.ofNat 45) rest

/-- Go `textproto.CanonicalMIMEHeaderKey`: a key with a byte that is not a token character is
returned unchanged. -/
def CanonicalMIMEHeaderKey (s : GoString) : GoString :=
  if s.all isToken then canonLoop true s else s

/-- Go `Header.Add`: the value is appended to the values of the canonical key. -/
def Header.Add (h : Header) (key value : GoString) : Header :=
  url.Values.Add h (CanonicalMIMEHeaderKey key) value

/-- Go `Header.Values`: the values of the canonical key. -/
def Header.Values (h : Header) (key : GoString) : List GoString :=
  url.Values.lookup h (CanonicalMIMEHeaderKey key)

/-- Go `validMethod`: a non-empty token. -/
def validMethod (method : GoString) : Bool := method.length > 0 && method.all isToken

/-- Go `http.Request`: the fields `http.NewRequest` and the client set. -/
structure Request where
  Method : GoString
  URL : url.URL
  Header : Header
  Body : Option Reader
  Host : GoString
  deriving DecidableEq

/-- Go `http.Response`: status code and body. -/
structure Response where
  StatusCode : Int
  Body : Bytes
  deriving DecidableEq

/-- Go `removeEmptyPort`: `host:` becomes `host`. -/
def removeEmptyPort (host : GoString) : GoString :=
  let colon := UInt8.ofNat 58
  let lastColon := (host.reverse.dropWhile (fun b => b != colon)).length
  let lastBracket := (host.reverse.dropWhile (fun b => b != UInt8.ofNat 93)).length
  if lastColon > lastBracket ∧ host.getLast? = some colon then host.dropLast else host

end http

/-! ## The signer -/

/-- Go `makeSign`: the signature and the `error` result, which is `nil` on the only return. -/
def makeSign (nonce : GoString) (urlStr : GoString) (body : Bytes) (secret : GoString) :
    GoString × Option GoError :=
  let h := hmac.New secret
  let h := h.Write nonce
  let h := h.Write urlStr
  let h := h.Write body
  (hex.EncodeToString h.Sum, none)

/-! ## Data model of the client -/

/-- Go `time.Time` as decoded from JSON: seconds and nanoseconds since the Unix epoch. -/
structure Time where
  sec : Int
  nsec : Nat
  deriving DecidableEq

/-- Go `float64`, by its IEEE 754 bit pattern; the client does no arithmetic on it. -/
structure Float64 where
  bits : Nat
  deriving DecidableEq

/-- Go `Client`: the credentials and the base URL. The HTTP client and the logger are the
collaborators of `Env`. -/
structure Client where
  Key : GoString
  Secret : GoString
  BaseURL : url.URL
  deriving DecidableEq

/-- Go `APIResponse`: the envelope of every response. -/
structure APIResponse where
  Success : Bool
  Error : GoString
  deriving DecidableEq

/-- Go `PaginationResponse`. The numbers are `int64`. -/
structure PaginationResponse where
  Limit : Int
  Order : GoString
  StartingAfter : Int
  EndingBefore : Int
  deriving DecidableEq

/-- Go `PaginationRequest`, a type of its own with the fields of `PaginationResponse`. -/
structure PaginationRequest where
  Limit : Int
  Order : GoString
  StartingAfter : Int
  EndingBefore : Int
  deriving DecidableEq

/-- Go `OrderHistory`. -/
structure OrderHistory where
  ID : Int
  OrderID : Int
  CreatedAt : Time
  Funds : List (GoString × GoString)
  Pair : GoString
  Rate : GoString
  FeeCurrency : GoString
  Fee : GoString
  Liquidity : GoString
  Side : GoString
  deriving DecidableEq

/-- Go `OrderHistoryResponse`. -/
structure OrderHistoryResponse extends PaginationResponse, APIResponse where
  Data : List OrderHistory
  Transactions : List OrderHistory
  deriving DecidableEq

/-- Go `SentHistory`. -/
structure SentHistory where
  ID : Int
  Amount : Float64
  Currency : GoString
  Fee : Float64
  Address : GoString
  CreatedAt : Time
  deriving DecidableEq

/-- Go `DepositHistory`. -/
structure DepositHistory where
  ID : Int
  Amount : Float64
  Currency : GoString
  Address : GoString
  Status : GoString
  ConfirmedAt : Time
  CreatedAt : Time
  deriving DecidableEq

/-- Go `SentHistoryResponse`. -/
structure SentHistoryResponse extends PaginationResponse, APIResponse where
  Sends : List SentHistory
  deriving DecidableEq

/-- Go `DepositHistoryResponse`. -/
structure DepositHistoryResponse extends PaginationResponse, APIResponse where
  Deposits : List DepositHistory
  deriving DecidableEq

/-- Go `TickerResponse`. -/
structure TickerResponse where
  Last : Float64
  Bid : Float64
  Ask : Float64
  High : Float64
  Low : Float64
  Volume : Float64
  Timestamp : Int
  deriving DecidableEq

/-- The collaborators of the client, outside of the package: the text of a URL
(`(*url.URL).String`), URL parsing (`url.Parse`), the quoting of `%q`, the HTTP transport
(`HTTPClient.Do`) and the JSON decoder (`json.NewDecoder(body).Decode(&ret)`, one per target
type; the ticker's target is returned also when decoding fails). -/
structure Env where
  URLString : url.URL → GoString
  Parse : GoString → Except GoError url.URL
  Quote : GoString → GoString
  Do : http.Request → Except GoError http.Response
  decodeOrderHistory : Bytes → Except GoError OrderHistoryResponse
  decodeSentHistory : Bytes → Except GoError SentHistoryResponse
  decodeDepositHistory : Bytes → Except GoError DepositHistoryResponse
  decodeTicker : Bytes → TickerResponse × Option GoError

/-- Go `http.NewRequest(method, url, body)`. -/
def http.NewRequest (env : Env) (method : GoString) (urlStr : GoString) (body : Option Reader) :
    Except GoError http.Request :=
  let method := if method = [] then str "GET" else method
  if !http.validMethod method then
    .error { msg := str "net/http: invalid method " ++ env.Quote method }
  else
    match env.Parse urlStr with
    | .error err => .error err
    | .ok u =>
      let u := { u with Host := http.removeEmptyPort u.Host }
      .ok { Method := method, URL := u, Header := [], Body := body, Host := u.Host }

/-- Go `New`. -/
def New (env : Env) (key : GoString) (secret : GoString) : Except GoError Client :=
  match env.Parse (str "https://coincheck.com/api") with
  | .error err => .error err
  | .ok u => .ok { Key := key, Secret := secret, BaseURL := u }

/-- Go `(*PaginationRequest).AddValues`; `none` is the `nil` receiver. The map is updated in
place, here the updated map is returned. -/
def PaginationRequest.AddValues (p : Option PaginationRequest) (v : url.Values) : url.Values :=
  match p with
  | none => v
  | some p =>
    let v := if p.Limit > 0 then url.Values.Add v (str "limit") (strconv.FormatInt p.Limit) else v
    let v := if p.Order ≠ [] then url.Values.Add v (str "order") p.Order else v
    let v := if p.StartingAfter ≠ 0 then
        url.Values.Add v (str "starting_after") (strconv.FormatInt p.StartingAfter)
      else v
    let v := if p.EndingBefore ≠ 0 then
        url.Values.Add v (str "ending_before") (strconv.FormatInt p.EndingBefore)
      else v
    v

/-! ## Request construction -/

/-- Lines 270 to 275 of `newPublicRequest`, the same as lines 280 to 285 of `newRequest`: a
copy of the base URL with the joined path and, for a non-`nil` query, the encoded query. -/
def Client.resolveURL (c : Client) (pathStr : GoString) (query : Option url.Values) : url.URL :=
  let u := c.BaseURL
  let u := { u with Path := path.Join [c.BaseURL.Path, pathStr] }
  match query with
  | some q => { u with RawQuery := url.Values.Encode q }
  | none => u

/-- Go `(*Client).newPublicRequest`. -/
def Client.newPublicRequest (c : Client) (env : Env) (method : GoString) (pathStr : GoString)
    (query : Option url.Values) (body : Option Reader) : Except GoError http.Request :=
  let u := c.resolveURL pathStr query
  let reqURL := env.URLString u
  http.NewRequest env method reqURL body

/-- Go `(*Client).newRequest`; `now` is the reading `time.Now().UnixNano()` of line 287.
The buffer `bb` is empty when it is made, `io.TeeReader(body, bb)` writes to it only what is
read through it, and nothing is read between its making and `bb.Bytes()`. -/
def Client.newRequest (c : Client) (env : Env) (now : Int) (method : GoString)
    (pathStr : GoString) (query : Option url.Values) (body : Option Reader) :
    Except GoError http.Request :=
  let u := c.resolveURL pathStr query
  let reqURL := env.URLString u
  let nonce := strconv.FormatInt now
  let bb : Bytes := []
  let body := match body with
    | some r => some (Reader.tee r bb)
    | none => none
  let sign := makeSign nonce reqURL bb c.Secret
  match sign.2 with
  | some err => .error err
  | none =>
    match http.NewRequest env method reqURL body with
    | .error err => .error err
    | .ok req =>
      let header := http.Header.Add req.Header (str "ACCESS-KEY") c.Key
      let header := http.Header.Add header (str "ACCESS-NONCE") nonce
      let header := http.Header.Add header (str "ACCESS-SIGNATURE") sign.1
      .ok { req with Header := header }

/-- Go `(*Client).decodeResponse` with `f == nil`, as at every call: the JSON decoder on the
body of the response. -/
def Client.decodeResponse {α : Type} (decode : Bytes → Except GoError α)
    (resp : http.Response) : Except GoError α :=
  decode resp.Body

/-! ## Operations -/

/-- Lines 101 to 111 of Go `(*Client).OrderHistory`: the request it builds. -/
def Client.orderHistoryRequest (c : Client) (env : Env) (now : Int)
    (page : Option PaginationRequest) : Except GoError http.Request :=
  let param : url.Values := []
  let param := PaginationRequest.AddValues page param
  let endpoint := if page ≠ none then str "/exchange/orders/transactions_pagination"
    else str "/exchange/orders/transactions"
  c.newRequest env now (str "GET") endpoint (some param) none

/-- Go `(*Client).OrderHistory`: the payload or the error. -/
def Client.OrderHistory (c : Client) (env : Env) (now : Int) (page : Option PaginationRequest) :
    Except GoError OrderHistoryResponse :=
  match c.orderHistoryRequest env now page with
  | .error err => .error err
  | .ok req =>
    match env.Do req with
    | .error err => .error err
    | .ok res =>
      match Client.decodeResponse env.decodeOrderHistory res with
      | .error err => .error err
      | .ok ret =>
        if ret.Error ≠ [] then .error (errors.New ret.Error)
        else if !ret.Success then .error (errors.New (str "unkonwn API error"))
        else .ok ret

/-- Go `(*Client).SentHistory`. -/
def Client.SentHistory (c : Client) (env : Env) (now : Int) (currency : GoString) :
    Except GoError SentHistoryResponse :=
  let param : url.Values := [(str "currency", [currency])]
  match c.newRequest env now (str "GET") (str "/send_money") (some param) none with
  | .error err => .error err
  | .ok req =>
    match env.Do req with
    | .error err => .error err
    | .ok res =>
      match Client.decodeResponse env.decodeSentHistory res with
      | .error err => .error err
      | .ok ret =>
        if ret.Error ≠ [] then .error (errors.New ret.Error)
        else if !ret.Success then .error (errors.New (str "unkonwn API error"))
        else .ok ret

/-- Go `(*Client).DepositHistory`. -/
def Client.DepositHistory (c : Client) (env : Env) (now : Int) (currency : GoString) :
    Except GoError DepositHistoryResponse :=
  let param : url.Values := [(str "currency", [currency])]
  match c.newRequest env now (str "GET") (str "/deposit_money") (some param) none with
  | .error err => .error err
  | .ok req =>
    match env.Do req with
    | .error err => .error err
    | .ok res =>
      match env.decodeDepositHistory res.Body with
      | .error err => .error err
      | .ok ret =>
        if ret.Error ≠ [] then .error (errors.New ret.Error)
        else if !ret.Success then .error (errors.New (str "unknown API error"))
        else .ok ret

/-- Go `(*Client).OpenOrders`: the error, `none` for `nil`. The body is printed. -/
def Client.OpenOrders (c : Client) (env : Env) (now : Int) : Option GoError :=
  match c.newRequest env now (str "GET") (str "/exchange/orders/opens") none none with
  | .error err => some err
  | .ok req =>
    match env.Do req with
    | .error err => some err
    | .ok res =>
      if res.StatusCode ≠ 200 then
        some { msg := str "bad status: " ++ strconv.FormatInt res.StatusCode }
      else none

/-- Go `(*Client).Ticker`: `&ret` and the error of the decoder are returned together. -/
def Client.Ticker (c : Client) (env : Env) : Option TickerResponse × Option GoError :=
  match c.newPublicRequest env (str "GET") (str "ticker") none none with
  | .error err => (none, some err)
  | .ok req =>
    match env.Do req with
    | .error err => (none, some err)
    | .ok res =>
      let r := env.decodeTicker res.Body
      (some r.1, r.2)

/-! ## A concrete environment

Collaborators to run the client on: URLs of the shape `scheme://host/path?query`, a server
that answers every request with one fixed envelope. -/

/-- The text of a URL with scheme, host, path and query. -/
def sampleURLString (u : url.URL) : GoString :=
  u.Scheme ++ str "://" ++ u.Host ++ u.Path ++
    (if u.RawQuery ≠ [] then UInt8.ofNat 63 :: u.RawQuery else [])

/-- The URL of a text `scheme://host/path?query`. -/
def sampleParse (s : GoString) : Except GoError url.URL :=
  let scheme := s.takeWhile (fun b => b != UInt8.ofNat 58)
  let rest := s.drop scheme.length
  if rest.take 3 ≠ str "://" then .error { msg := str "parse: missing protocol scheme" }
  else
    let rest := rest.drop 3
    let host := rest.takeWhile (fun b => b != path.slash && b != UInt8.ofNat 63)
    let rest := rest.drop host.length
    let pathStr := rest.takeWhile (fun b => b != UInt8.ofNat 63)
    .ok { Scheme := scheme, Opaque := [], User := none, Host := host, Path := pathStr,
          RawPath := [], OmitHost := false, ForceQuery := false,
          RawQuery := (rest.drop pathStr.length).drop 1, Fragment := [], RawFragment := [] }

/-- A response with the given envelope and nothing else. -/
def sampleOrders (e : APIResponse) : OrderHistoryResponse :=
  { Limit := 0, Order := [], StartingAfter := 0, EndingBefore := 0, Success := e.Success,
    Error := e.Error, Data := [], Transactions := [] }

/-- A response with the given envelope and nothing else. -/
def sampleSends (e : APIResponse) : SentHistoryResponse :=
  { Limit := 0, Order := [], StartingAfter := 0, EndingBefore := 0, Success := e.Success,
    Error := e.Error, Sends := [] }

/-- A response with the given envelope and nothing else. -/
def sampleDeposits (e : APIResponse) : DepositHistoryResponse :=
  { Limit := 0, Order := [], StartingAfter := 0, EndingBefore := 0, Success := e.Success,
    Error := e.Error, Deposits := [] }

/-- The environment of a server that answers every request with status 200 and the envelope
`e`. -/
def sampleEnv (e : APIResponse) : Env :=
  { URLString := sampleURLString
    Parse := sampleParse
    Quote := fun s => UInt8.ofNat 34 :: s ++ [UInt8.ofNat 34]
    Do := fun _ => .ok { StatusCode := 200, Body := [] }
    decodeOrderHistory := fun _ => .ok (sampleOrders e)
    decodeSentHistory := fun _ => .ok (sampleSends e)
    decodeDepositHistory := fun _ => .ok (sampleDeposits e)
    decodeTicker := fun _ =>
      ({ Last := ⟨0⟩, Bid := ⟨0⟩, Ask := ⟨0⟩, High := ⟨0⟩, Low := ⟨0⟩, Volume := ⟨0⟩,
         Timestamp := 0 }, none) }

/-- The client `New` makes in `sampleEnv`, with key `k` and secret `s`. -/
def sampleClient : Client :=
  { Key := str "k", Secret := str "s",
    BaseURL := { Scheme := str "https", Opaque := [], User := none, Host := str "coincheck.com",
                 Path := str "/api", RawPath := [], OmitHost := false, ForceQuery := false,
                 RawQuery := [], Fragment := [], RawFragment := [] } }

/-- The client for the base URL `https://coincheck.com:/api`, whose host has an empty port,
with key `k` and secret `s`. -/
def emptyPortClient : Client :=
  { sampleClient with BaseURL := { sampleClient.BaseURL with Host := str "coincheck.com:" } }

/-! ## What the streaming digest holds -/

namespace sha256

/-- The chaining value after every full chunk of `p`, with the bytes after the last one. -/
def absorb (h : Vars) (p : Bytes) : Vars × Bytes := blockLoop (p.length / chunk) h p

/-- The digest `d` is the state after the bytes `m` were written: the chaining value over the
full chunks of `m`, the rest of `m` pending, the length of `m` as a `uint64`. -/
def digest.Holds (d : digest) (m : Bytes) : Prop :=
  (d.h, d.x) = absorb init m ∧ d.len = m.length % 18446744073709551616

end sha256

/-! ## The streaming digest computes SHA-256 -/

namespace sha256

theorem blockLoop_short (n : Nat) (h : Vars) (p : Bytes) (hp : p.length < chunk) :
    blockLoop n h p = (h, p) := by
  cases n with
  | zero => rfl
  | succ n => simp [blockLoop, hp]

theorem blockLoop_eq_absorb (n : Nat) (h : Vars) (p : Bytes) (hn : p.length / chunk ≤ n) :
    blockLoop n h p = absorb h p := by
  induction n generalizing h p with
  | zero =>
    have : p.length < chunk := by
      simp only [chunk] at *
      omega
    rw [absorb, blockLoop_short _ _ _ this, blockLoop_short _ _ _ this]
  | succ n ih =>
    by_cases hp : p.length < chunk
    · rw [absorb, blockLoop_short _ _ _ hp, blockLoop_short _ _ _ hp]
    · have hlen : chunk ≤ p.length := Nat.le_of_not_lt hp
      have hd : (p.drop chunk).length / chunk ≤ n := by
        simp only [List.length_drop, chunk] at *
        omega
      have hq : p.length / chunk = (p.drop chunk).length / chunk + 1 := by
        simp only [List.length_drop, chunk] at *
        omega
      rw [absorb, hq]
      simp only [blockLoop, hp, if_false]
      rw [ih _ _ hd, absorb]

theorem absorb_short (h : Vars) (p : Bytes) (hp : p.length < chunk) : absorb h p = (h, p) :=
  blockLoop_short _ _ _ hp

theorem absorb_step (h : Vars) (p : Bytes) (hp : chunk ≤ p.length) :
    absorb h p = absorb (blockOne h (p.take chunk)) (p.drop chunk) := by
  have hq : p.length / chunk = (p.drop chunk).length / chunk + 1 := by
    simp only [List.length_drop, chunk] at *
    omega
  have hn : ¬ p.length < chunk := Nat.not_lt.mpr hp
  conv_lhs => rw [absorb, hq]
  simp only [blockLoop, hn, if_false]
  rfl

/-- Whole chunks in front are absorbed first. -/
theorem absorb_chunks (k : Nat) (h : Vars) (a b : Bytes) (ha : a.length = chunk * k) :
    absorb h (a ++ b) = absorb (absorb h a).1 b ∧ (absorb h a).2 = [] := by
  induction k generalizing h a with
  | zero =>
    have : a = [] := List.length_eq_zero.mp (by simpa using ha)
    subst this
    simp [absorb_short, chunk]
  | succ k ih =>
    have hlen : chunk ≤ a.length := by rw [ha]; simp [Nat.mul_succ]
    have hd : (a.drop chunk).length = chunk * k := by
      simp [List.length_drop, ha, Nat.mul_succ]
    have hlen2 : chunk ≤ (a ++ b).length := by simp; omega
    have ht : (a ++ b).take chunk = a.take chunk := List.take_append_of_le_length hlen
    have hdr : (a ++ b).drop chunk = a.drop chunk ++ b := List.drop_append_of_le_length hlen
    rw [absorb_step h (a ++ b) hlen2, absorb_step h a hlen, ht, hdr]
    exact ih _ _ hd

theorem absorb_append (h : Vars) (a b : Bytes) :
    absorb h (a ++ b) = absorb (absorb h a).1 ((absorb h a).2 ++ b) := by
  have hm : (a.take (chunk * (a.length / chunk))).length = chunk * (a.length / chunk) := by
    rw [List.length_take]
    exact Nat.min_eq_left (Nat.mul_div_le _ _)
  have hs : (a.drop (chunk * (a.length / chunk))).length < chunk := by
    rw [List.length_drop]
    have := Nat.mod_lt a.length (by decide : 0 < chunk)
    have := Nat.div_add_mod a.length chunk
    omega
  have h1 := absorb_chunks _ h _ (a.drop (chunk * (a.length / chunk)) ++ b) hm
  have h2 := absorb_chunks _ h _ (a.drop (chunk * (a.length / chunk))) hm
  rw [List.take_append_drop, absorb_short _ _ hs] at h2
  rw [← List.append_assoc, List.take_append_drop] at h1
  rw [h1.1, h2.1]

theorem absorb_rest_lt (h : Vars) (p : Bytes) : (absorb h p).2.length < chunk := by
  have hm : (p.take (chunk * (p.length / chunk))).length = chunk * (p.length / chunk) := by
    rw [List.length_take]
    exact Nat.min_eq_left (Nat.mul_div_le _ _)
  have hs : (p.drop (chunk * (p.length / chunk))).length < chunk := by
    rw [List.length_drop]
    have := Nat.mod_lt p.length (by decide : 0 < chunk)
    have := Nat.div_add_mod p.length chunk
    omega
  have h2 := absorb_chunks _ h _ (p.drop (chunk * (p.length / chunk))) hm
  rw [List.take_append_drop, absorb_short _ _ hs] at h2
  rw [h2.1]
  exact hs

/-- The second and third step of `Write` on a digest with nothing pending. -/
theorem absorb_whole (h : Vars) (q : Bytes) :
    absorb h q = (if q.length ≥ chunk then block h (q.take (q.length / chunk * chunk)) else h,
      if q.length ≥ chunk then q.drop (q.length / chunk * chunk) else q) := by
  by_cases hq : q.length ≥ chunk
  · have hm : (q.take (q.length / chunk * chunk)).length = chunk * (q.length / chunk) := by
      rw [List.length_take, Nat.mul_comm]
      exact Nat.min_eq_left (Nat.mul_div_le _ _)
    have hs : (q.drop (q.length / chunk * chunk)).length < chunk := by
      rw [List.length_drop]
      have := Nat.mod_lt q.length (by decide : 0 < chunk)
      have := Nat.div_add_mod q.length chunk
      rw [Nat.mul_comm]
      omega
    have h2 := absorb_chunks _ h _ (q.drop (q.length / chunk * chunk)) hm
    rw [List.take_append_drop, absorb_short _ _ hs] at h2
    rw [if_pos hq, if_pos hq, h2.1]
    rfl
  · rw [if_neg hq, if_neg hq]
    exact absorb_short _ _ (Nat.lt_of_not_le hq)

/-- The third step of `Write`: what is left of `p` is the pending part. -/
theorem pending_eq (q x : Bytes) (h : q = [] → x = []) :
    (if q.length > 0 then q else x) = q := by
  cases q with
  | nil => simp [h rfl]
  | cons a q => simp

/-- The second and third step of `Write`, from chaining value `h` with nothing pending. -/
theorem Write_whole (h : Vars) (q : Bytes) :
    ((if q.length ≥ chunk then block h (q.take (q.length / chunk * chunk)) else h),
      (if (if q.length ≥ chunk then q.drop (q.length / chunk * chunk) else q).length > 0 then
        (if q.length ≥ chunk then q.drop (q.length / chunk * chunk) else q) else [])) =
    absorb h q := by
  rw [pending_eq _ _ (fun _ => rfl), absorb_whole]

theorem Write_absorb (d : digest) (p : Bytes) (hx : d.x.length < chunk) :
    ((d.Write p).h, (d.Write p).x) = absorb d.h (d.x ++ p) := by
  by_cases h0 : d.x.length > 0
  · by_cases hfull : (d.x ++ p.take (min (chunk - d.x.length) p.length)).length = chunk
    · -- the pending bytes are filled up to a chunk
      have hn : min (chunk - d.x.length) p.length = chunk - d.x.length := by
        simp only [List.length_append, List.length_take] at hfull
        omega
      have hsplit : d.x ++ p = (d.x ++ p.take (chunk - d.x.length)) ++
          p.drop (chunk - d.x.length) := by
        rw [List.append_assoc, List.take_append_drop]
      have hlen : chunk ≤ (d.x ++ p).length := by
        rw [hsplit, List.length_append, ← hn, hfull]
        exact Nat.le_add_right _ _
      have ht : (d.x ++ p).take chunk = d.x ++ p.take (chunk - d.x.length) := by
        rw [hn] at hfull
        rw [hsplit, List.take_append_of_le_length (Nat.le_of_eq hfull.symm), List.take_of_length_le
          (Nat.le_of_eq hfull)]
      have hd : (d.x ++ p).drop chunk = p.drop (chunk - d.x.length) := by
        rw [hn] at hfull
        conv_lhs => rw [hsplit]
        rw [List.drop_append_of_le_length (Nat.le_of_eq hfull.symm), List.drop_of_length_le
          (Nat.le_of_eq hfull), List.nil_append]
      rw [absorb_step _ _ hlen, ht, hd, ← Write_whole]
      have hc : d.x.length > 0 ∧
          (d.x ++ p.take (min (chunk - d.x.length) p.length)).length = chunk := ⟨h0, hfull⟩
      have hc2 : d.x.length > 0 ∧ (d.x ++ p.take (chunk - d.x.length)).length = chunk :=
        hn ▸ hc
      unfold digest.Write
      simp only [if_pos h0, hn, if_pos hc2]
    · -- everything written stays pending
      have hn : min (chunk - d.x.length) p.length = p.length := by
        simp only [List.length_append, List.length_take] at hfull
        omega
      have hshort : (d.x ++ p).length < chunk := by
        rw [hn, List.take_length] at hfull
        simp only [List.length_append] at hfull ⊢
        omega
      rw [absorb_short _ _ hshort]
      have hc : ¬ (d.x.length > 0 ∧
          (d.x ++ p.take (min (chunk - d.x.length) p.length)).length = chunk) :=
        fun h => hfull h.2
      have hge : ¬ ([] : Bytes).length ≥ chunk := by decide
      have hc2 : ¬ (0 < d.x.length ∧ (d.x ++ p).length = chunk) :=
        fun h => Nat.ne_of_lt hshort h.2
      have hge2 : ¬ 0 ≥ chunk := by decide
      unfold digest.Write
      simp only [if_pos h0, hn, List.drop_length, List.take_length, if_neg hge,
        List.length_nil, gt_iff_lt, Nat.lt_irrefl, if_false, if_neg hc2, if_neg hge2]
  · -- nothing is pending
    have hx0 : d.x = [] := List.length_eq_zero.mp (Nat.eq_zero_of_not_pos h0)
    have hc : ¬ (d.x.length > 0 ∧
        (d.x ++ p.take (min (chunk - d.x.length) p.length)).length = chunk) :=
      fun h => h0 h.1
    rw [hx0, List.nil_append, ← Write_whole]
    unfold digest.Write
    simp only [hx0, List.length_nil, gt_iff_lt, Nat.lt_irrefl, if_false, false_and]

theorem Write_len (d : digest) (p : Bytes) :
    (d.Write p).len = (d.len + p.length) % 18446744073709551616 := rfl

theorem Holds_New : New.Holds [] := ⟨rfl, rfl⟩

theorem Holds_Write (d : digest) (m p : Bytes) (hd : d.Holds m) : (d.Write p).Holds (m ++ p) := by
  obtain ⟨hhx, hlen⟩ := hd
  have hx : d.x.length < chunk := by
    have := absorb_rest_lt init m
    rw [← hhx] at this
    exact this
  refine ⟨?_, ?_⟩
  · rw [Write_absorb d p hx, absorb_append init m p, ← hhx]
  · rw [Write_len, hlen, List.length_append]
    omega

theorem Holds_Sum (d : digest) (m : Bytes) (hd : d.Holds m) : d.Sum = hash m := by
  have h := (Holds_Write d m (padding d.len) hd).1
  rw [hd.2] at h
  unfold digest.Sum hash
  have h1 : (d.Write (padding d.len)).h =
      (absorb init (m ++ padding (m.length % 18446744073709551616))).1 := by
    rw [← h, hd.2]
  rw [h1]
  rfl

/-- A fresh digest written once, then summed, is the hash of what was written. -/
theorem Sum_Write_New (p : Bytes) : (New.Write p).Sum = hash p := by
  have := Holds_Sum _ _ (Holds_Write _ _ p Holds_New)
  simpa using this

theorem length_bytes (v : Vars) : v.bytes.length = 32 := rfl

theorem length_hash (m : Bytes) : (hash m).length = 32 := rfl

end sha256

/-! ## The signer computes hex(HMAC-SHA256) -/

theorem hmac_keyBlock_New (key : Bytes) :
    hmac.keyBlock (if key.length > sha256.chunk then sha256.New.Write key else sha256.New).Sum key
      = hmac.keyBlock (sha256.hash key) key := by
  unfold hmac.keyBlock
  by_cases h : key.length > sha256.chunk
  · simp only [if_pos h, sha256.Sum_Write_New]
  · simp only [if_neg h]

/-- Three writes and a sum on a fresh `hmac` give HMAC-SHA256 of the three parts put
together. -/
theorem hmac_Sum_Write3 (key a b c : Bytes) :
    ((((hmac.New key).Write a).Write b).Write c).Sum = hmacSHA256 key (a ++ b ++ c) := by
  have hin : (((sha256.New.Write
      ((hmac.keyBlock (sha256.hash key) key).map (fun x => x ^^^ UInt8.ofNat 0x36))).Write a).Write
        b).Write c |>.Holds
      ((hmac.keyBlock (sha256.hash key) key).map (fun x => x ^^^ UInt8.ofNat 0x36) ++
        (a ++ b ++ c)) := by
    have h0 := sha256.Holds_Write _ _
      ((hmac.keyBlock (sha256.hash key) key).map (fun x => x ^^^ UInt8.ofNat 0x36))
      sha256.Holds_New
    have h3 := sha256.Holds_Write _ _ c (sha256.Holds_Write _ _ b (sha256.Holds_Write _ _ a h0))
    simpa [List.append_assoc] using h3
  have hout := sha256.Holds_Write _ _
      (sha256.hash ((hmac.keyBlock (sha256.hash key) key).map (fun x => x ^^^ UInt8.ofNat 0x36) ++
        (a ++ b ++ c)))
      (sha256.Holds_Write _ _
        ((hmac.keyBlock (sha256.hash key) key).map (fun x => x ^^^ UInt8.ofNat 0x5c))
        sha256.Holds_New)
  unfold hmac.Sum hmac.Write hmac.New hmacSHA256
  simp only [hmac_keyBlock_New]
  rw [sha256.Holds_Sum _ _ hin, sha256.Holds_Sum _ _ hout]
  rfl

/-- The signer as a function of the secret and the three parts put together. -/
theorem makeSign_eq (nonce urlStr : GoString) (body : Bytes) (secret : GoString) :
    makeSign nonce urlStr body secret =
      (hex.EncodeToString (hmacSHA256 secret (nonce ++ urlStr ++ body)), none) := by
  show (hex.EncodeToString ((((hmac.New secret).Write nonce).Write urlStr).Write body).Sum, none)
    = _
  rw [hmac_Sum_Write3]

theorem hex_length (b : Bytes) : (hex.EncodeToString b).length = 2 * b.length := by
  induction b with
  | nil => rfl
  | cons v rest ih => simp only [hex.EncodeToString, List.length_cons, ih]; omega

theorem hextable_getD_mem : ∀ i : Fin 16, hex.hextable.getD i.val 0 ∈ hex.hextable := by
  decide

theorem hex_lowercase (b : Bytes) : ∀ ch ∈ hex.EncodeToString b, ch ∈ hex.hextable := by
  induction b with
  | nil => intro ch h; simp [hex.EncodeToString] at h
  | cons v rest ih =>
    intro ch h
    simp only [hex.EncodeToString, List.mem_cons] at h
    have hv : v.toNat < 256 := v.val.isLt
    rcases h with h | h | h
    · rw [h]
      have hlt : v.toNat >>> 4 < 16 := by
        rw [Nat.shiftRight_eq_div_pow]
        omega
      exact hextable_getD_mem ⟨_, hlt⟩
    · rw [h]
      have hlt : v.toNat &&& 0x0f < 16 := Nat.lt_of_le_of_lt Nat.and_le_right (by decide)
      exact hextable_getD_mem ⟨_, hlt⟩
    · exact ih ch h

/-- C1: for every nonce, URL, body and secret, `makeSign` returns a `nil` error and the
lowercase hexadecimal text (64 characters of `0123456789abcdef`) of HMAC-SHA256, keyed by the
bytes of the secret, of the bytes nonce ++ URL ++ body, in that order with nothing between; the
signature is a function of these inputs alone. -/
theorem makeSign_is_hex_hmac_sha256 (nonce urlStr : GoString) (body : Bytes)
    (secret : GoString) :
    (makeSign nonce urlStr body secret).2 = none ∧
    (makeSign nonce urlStr body secret).1 =
      hex.EncodeToString (hmacSHA256 secret (nonce ++ urlStr ++ body)) ∧
    (makeSign nonce urlStr body secret).1.length = 64 ∧
    ∀ ch ∈ (makeSign nonce urlStr body secret).1, ch ∈ str "0123456789abcdef" := by
  rw [makeSign_eq]
  refine ⟨rfl, rfl, ?_, ?_⟩
  · show (hex.EncodeToString (hmacSHA256 secret (nonce ++ urlStr ++ body))).length = 64
    rw [hex_length]
    rfl
  · exact hex_lowercase _

/-- C10: `makeSign` depends only on the secret and on the three message parts put together:
two triples with the same concatenation nonce ++ URL ++ body get the same signature under the
same secret. -/
theorem makeSign_concat_only (secret : GoString) (nonce1 url1 : GoString) (body1 : Bytes)
    (nonce2 url2 : GoString) (body2 : Bytes)
    (h : nonce1 ++ url1 ++ body1 = nonce2 ++ url2 ++ body2) :
    makeSign nonce1 url1 body1 secret = makeSign nonce2 url2 body2 secret := by
  rw [makeSign_eq, makeSign_eq, h]

/-- C10 at the nonce `12` with URL `3x` and the nonce `1` with URL `23x`: two different
triples, one signature. -/
theorem makeSign_concat_only_witness :
    (str "12", str "3x") ≠ (str "1", str "23x") ∧
    makeSign (str "12") (str "3x") [] (str "s") = makeSign (str "1") (str "23x") [] (str "s") :=
  ⟨by decide, makeSign_concat_only (str "s") (str "12") (str "3x") [] (str "1") (str "23x") []
    (by decide)⟩

/-! ## Decimal rendering -/

namespace strconv

theorem digit_toNat (d : Nat) (h : d < 10) : (digit d).toNat = 48 + d := by
  show (48 + d) % 256 = 48 + d
  omega

theorem readDigits_append (a : Nat) (xs ys : GoString) :
    readDigits a (xs ++ ys) = readDigits (readDigits a xs) ys := by
  induction xs generalizing a with
  | nil => rfl
  | cons c rest ih => exact ih _

/-- What `formatBits` writes: at least one ASCII digit, in front of `acc`, denoting `u`. -/
theorem formatBits_spec (n u : Nat) (acc : GoString) (h : u < n) :
    ∃ ds, formatBits n u acc = ds ++ acc ∧ ds ≠ [] ∧ (∀ d ∈ ds, 48 ≤ d.toNat ∧ d.toNat ≤ 57) ∧
      ∀ a, readDigits a ds = a * 10 ^ ds.length + u := by
  induction n generalizing u acc with
  | zero => omega
  | succ n ih =>
    by_cases hu : u < 10
    · refine ⟨[digit u], by simp [formatBits, hu], by simp, ?_, ?_⟩
      · intro d hd
        rw [List.mem_singleton] at hd
        rw [hd, digit_toNat u hu]
        omega
      · intro a
        show a * 10 + ((digit u).toNat - 48) = a * 10 ^ 1 + u
        rw [digit_toNat u hu, Nat.pow_one]
        omega
    · obtain ⟨ds, h1, _, h3, h4⟩ := ih (u / 10) (digit (u % 10) :: acc) (by omega)
      refine ⟨ds ++ [digit (u % 10)], ?_, by simp, ?_, ?_⟩
      · simp only [formatBits, hu, if_false, h1, List.append_assoc, List.singleton_append]
      · intro d hd
        rw [List.mem_append, List.mem_singleton] at hd
        rcases hd with hd | hd
        · exact h3 d hd
        · rw [hd, digit_toNat _ (Nat.mod_lt _ (by decide))]
          omega
      · intro a
        rw [readDigits_append, h4]
        show (a * 10 ^ ds.length + u / 10) * 10 + ((digit (u % 10)).toNat - 48) = _
        rw [digit_toNat _ (Nat.mod_lt u (by decide : 0 < 10)), List.length_append,
          List.length_singleton, Nat.pow_succ, ← Nat.mul_assoc]
        have := Nat.div_add_mod u 10
        omega

theorem readDecimal_minus (rest : GoString) :
    readDecimal (UInt8.ofNat 45 :: rest) = - (readDigits 0 rest : Int) := by
  show (if UInt8.ofNat 45 = UInt8.ofNat 45 then - (readDigits 0 rest : Int)
    else readDigits 0 (UInt8.ofNat 45 :: rest)) = _
  rw [if_pos rfl]

theorem readDecimal_digits (c : UInt8) (rest : GoString) (h : c ≠ UInt8.ofNat 45) :
    readDecimal (c :: rest) = readDigits 0 (c :: rest) := by
  show (if c = UInt8.ofNat 45 then - (readDigits 0 rest : Int) else readDigits 0 (c :: rest)) = _
  rw [if_neg h]

/-- Reading the decimal rendering of an integer gives the integer back. -/
theorem readDecimal_FormatInt (i : Int) : readDecimal (FormatInt i) = i := by
  obtain ⟨ds, h1, h2, h3, h4⟩ := formatBits_spec (i.natAbs + 1) i.natAbs [] (Nat.lt_succ_self _)
  rw [List.append_nil] at h1
  have hr := h4 0
  rw [Nat.zero_mul, Nat.zero_add] at hr
  unfold FormatInt
  by_cases hi : i < 0
  · rw [if_pos hi, h1, readDecimal_minus, hr]
    omega
  · rw [if_neg hi, h1]
    cases ds with
    | nil => exact absurd rfl h2
    | cons c rest =>
      have hc := h3 c (List.mem_cons_self _ _)
      have hne : c ≠ UInt8.ofNat 45 := by
        intro h
        rw [h] at hc
        exact absurd hc (by decide)
      rw [readDecimal_digits c rest hne, hr]
      omega

end strconv

/-! ## Requests and their headers -/

theorem canonical_access_keys :
    http.CanonicalMIMEHeaderKey (str "ACCESS-KEY") = str "Access-Key" ∧
    http.CanonicalMIMEHeaderKey (str "ACCESS-NONCE") = str "Access-Nonce" ∧
    http.CanonicalMIMEHeaderKey (str "ACCESS-SIGNATURE") = str "Access-Signature" := by
  decide

/-- The header after the three `Add`s of `newRequest` on the empty header of a new request. -/
theorem header_three (k n s : GoString) :
    http.Header.Add (http.Header.Add (http.Header.Add [] (str "ACCESS-KEY") k)
      (str "ACCESS-NONCE") n) (str "ACCESS-SIGNATURE") s =
    [(str "Access-Key", [k]), (str "Access-Nonce", [n]), (str "Access-Signature", [s])] := by
  unfold http.Header.Add
  rw [canonical_access_keys.1, canonical_access_keys.2.1, canonical_access_keys.2.2]
  have h1 : str "Access-Key" ≠ str "Access-Nonce" := by decide
  have h2 : str "Access-Key" ≠ str "Access-Signature" := by decide
  have h3 : str "Access-Nonce" ≠ str "Access-Signature" := by decide
  simp only [url.Values.Add, if_neg h1, if_neg h2, if_neg h3]

theorem header_three_values (k n s : GoString) :
    http.Header.Values
      [(str "Access-Key", [k]), (str "Access-Nonce", [n]), (str "Access-Signature", [s])]
      (str "ACCESS-KEY") = [k] ∧
    http.Header.Values
      [(str "Access-Key", [k]), (str "Access-Nonce", [n]), (str "Access-Signature", [s])]
      (str "ACCESS-NONCE") = [n] ∧
    http.Header.Values
      [(str "Access-Key", [k]), (str "Access-Nonce", [n]), (str "Access-Signature", [s])]
      (str "ACCESS-SIGNATURE") = [s] := by
  unfold http.Header.Values
  rw [canonical_access_keys.1, canonical_access_keys.2.1, canonical_access_keys.2.2]
  have h1 : str "Access-Key" ≠ str "Access-Nonce" := by decide
  have h2 : str "Access-Key" ≠ str "Access-Signature" := by decide
  have h3 : str "Access-Nonce" ≠ str "Access-Signature" := by decide
  simp only [url.Values.lookup, if_neg h1, if_neg h2, if_neg h3, if_true, and_self]

/-- A request `http.NewRequest` returns has an empty header, the body it was given, and the
URL parsed from the text it was given. -/
theorem NewRequest_ok (env : Env) (method urlStr : GoString) (body : Option Reader)
    (req : http.Request) (h : http.NewRequest env method urlStr body = .ok req) :
    req.Header = [] ∧ req.Body = body ∧
    ∃ u, env.Parse urlStr = .ok u ∧ req.URL = { u with Host := http.removeEmptyPort u.Host } := by
  unfold http.NewRequest at h
  dsimp only at h
  generalize (if method = [] then str "GET" else method) = m at h
  cases hv : http.validMethod m with
  | false => simp [hv] at h
  | true =>
    simp only [hv, Bool.not_true, Bool.false_eq_true, if_false] at h
    cases hp : env.Parse urlStr with
    | error e => simp [hp] at h
    | ok u =>
      simp only [hp, Except.ok.injEq] at h
      subst h
      exact ⟨rfl, rfl, u, rfl, rfl⟩

theorem tee_body (body : Option Reader) :
    (match body with
      | some r => some (Reader.tee r [])
      | none => none) = body.map (fun r => Reader.tee r []) := by
  cases body <;> rfl

/-- A request `newRequest` returns is the request of `http.NewRequest` for the same method and
URL text, with the three headers added; the signature is over the empty buffer. -/
theorem newRequest_ok (c : Client) (env : Env) (now : Int) (method pathStr : GoString)
    (query : Option url.Values) (body : Option Reader) (req : http.Request)
    (h : c.newRequest env now method pathStr query body = .ok req) :
    ∃ req0, http.NewRequest env method (env.URLString (c.resolveURL pathStr query))
        (body.map (fun r => Reader.tee r [])) = .ok req0 ∧
      req = { req0 with Header :=
        [(str "Access-Key", [c.Key]), (str "Access-Nonce", [strconv.FormatInt now]),
         (str "Access-Signature", [(makeSign (strconv.FormatInt now)
            (env.URLString (c.resolveURL pathStr query)) [] c.Secret).1])] } := by
  unfold Client.newRequest at h
  dsimp only at h
  rw [tee_body] at h
  have hs : (makeSign (strconv.FormatInt now) (env.URLString (c.resolveURL pathStr query)) []
      c.Secret).2 = none := by rw [makeSign_eq]
  rw [hs] at h
  dsimp only at h
  cases h0 : http.NewRequest env method (env.URLString (c.resolveURL pathStr query))
      (body.map (fun r => Reader.tee r [])) with
  | error e => simp [h0] at h
  | ok req0 =>
    simp only [h0, Except.ok.injEq] at h
    have hh := (NewRequest_ok _ _ _ _ _ h0).1
    rw [hh, header_three] at h
    exact ⟨req0, rfl, h.symm⟩

/-- C2, amended: signing is applied to private requests and never to public ones. A request
built by `newPublicRequest` has an empty header, so none of ACCESS-KEY, ACCESS-NONCE,
ACCESS-SIGNATURE. A request built by `newRequest` with no body has exactly these three headers,
each with one value: the client's key, the nonce (the decimal rendering of the clock reading),
and `makeSign` of that nonce, the URL text handed to `http.NewRequest` (the text of the base
URL with the joined path and the encoded query), the empty body and the client's secret. The
URL of the request is the one parsed from that text, with an empty port removed from the host;
when the request's own URL has that same text, the signature is over the request's own URL
text. -/
theorem signing_private_never_public (c : Client) (env : Env) (now : Int)
    (method pathStr : GoString) (query : Option url.Values) (publicBody : Option Reader) :
    (∀ req, c.newPublicRequest env method pathStr query publicBody = .ok req →
      req.Header = [] ∧
      http.Header.Values req.Header (str "ACCESS-KEY") = [] ∧
      http.Header.Values req.Header (str "ACCESS-NONCE") = [] ∧
      http.Header.Values req.Header (str "ACCESS-SIGNATURE") = []) ∧
    (∀ req, c.newRequest env now method pathStr query none = .ok req →
      req.Header.map Prod.fst = [str "Access-Key", str "Access-Nonce", str "Access-Signature"] ∧
      http.Header.Values req.Header (str "ACCESS-KEY") = [c.Key] ∧
      http.Header.Values req.Header (str "ACCESS-NONCE") = [strconv.FormatInt now] ∧
      http.Header.Values req.Header (str "ACCESS-SIGNATURE") =
        [(makeSign (strconv.FormatInt now) (env.URLString (c.resolveURL pathStr query)) []
          c.Secret).1] ∧
      (∃ u, env.Parse (env.URLString (c.resolveURL pathStr query)) = .ok u ∧
        req.URL = { u with Host := http.removeEmptyPort u.Host }) ∧
      (env.URLString req.URL = env.URLString (c.resolveURL pathStr query) →
        http.Header.Values req.Header (str "ACCESS-SIGNATURE") =
          [(makeSign (strconv.FormatInt now) (env.URLString req.URL) [] c.Secret).1])) := by
  constructor
  · intro req h
    have hh := (NewRequest_ok _ _ _ _ _ h).1
    rw [hh]
    exact ⟨rfl, rfl, rfl, rfl⟩
  · intro req h
    obtain ⟨req0, h0, hreq⟩ := newRequest_ok _ _ _ _ _ _ _ _ h
    obtain ⟨_, _, u, hu, hurl⟩ := NewRequest_ok _ _ _ _ _ h0
    have hv := header_three_values c.Key (strconv.FormatInt now)
      (makeSign (strconv.FormatInt now) (env.URLString (c.resolveURL pathStr query)) []
        c.Secret).1
    rw [hreq]
    refine ⟨rfl, hv.1, hv.2.1, hv.2.2, ⟨u, hu, hurl⟩, ?_⟩
    intro hsame
    rw [hsame]
    exact hv.2.2

set_option maxRecDepth 100000 in
/-- C2, as stated, fails: for the client whose base URL is `https://coincheck.com:/api`, key
`k`, secret `s`, at the clock reading 17, the private request for `/exchange/orders/opens` is
built with the URL `https://coincheck.com/api/exchange/orders/opens`, the empty port removed,
while its ACCESS-SIGNATURE is the signature of the text
`https://coincheck.com:/api/exchange/orders/opens`, which is not the signature of the request's
own URL text. -/
theorem signature_not_over_request_url :
    ∃ req, emptyPortClient.newRequest (sampleEnv ⟨true, []⟩) 17 (str "GET")
        (str "/exchange/orders/opens") none none = .ok req ∧
      sampleURLString emptyPortClient.BaseURL = str "https://coincheck.com:/api" ∧
      sampleURLString req.URL = str "https://coincheck.com/api/exchange/orders/opens" ∧
      http.Header.Values req.Header (str "ACCESS-SIGNATURE") =
        [(makeSign (str "17") (str "https://coincheck.com:/api/exchange/orders/opens") []
          (str "s")).1] ∧
      (makeSign (str "17") (str "https://coincheck.com:/api/exchange/orders/opens") []
          (str "s")).1 =
        str "e7ef0b7380dfa7ce973209dd94c2a74f2808171785505aa0dc9efaa864cf8f08" ∧
      (makeSign (str "17") (sampleURLString req.URL) [] (str "s")).1 =
        str "69e8b646ecc785a47ae02b977d42bd5caf540b3e2ec4ba95d924212ea8ac2678" ∧
      http.Header.Values req.Header (str "ACCESS-SIGNATURE") ≠
        [(makeSign (str "17") (sampleURLString req.URL) [] (str "s")).1] := by
  refine ⟨{ Method := str "GET",
            URL := { sampleClient.BaseURL with Path := str "/api/exchange/orders/opens" },
            Header := [(str "Access-Key", [str "k"]), (str "Access-Nonce", [str "17"]),
              (str "Access-Signature", [(makeSign (str "17")
                (str "https://coincheck.com:/api/exchange/orders/opens") [] (str "s")).1])],
            Body := none, Host := str "coincheck.com" }, rfl, by decide, by decide, ?_,
          by decide, by decide, ?_⟩
  · exact (header_three_values _ _ _).2.2
  · rw [(header_three_values _ _ _).2.2]
    decide

/-- C2, amended, at the client of `New` with key `k` and secret `s`, the clock reading 17: the public
request for `ticker` is built and has no header; the private request for
`/exchange/orders/opens` is built and carries the key, the nonce `17` and the signature of
`17` and `https://coincheck.com/api/exchange/orders/opens`. -/
theorem signing_private_never_public_witness :
    (∃ req, sampleClient.newPublicRequest (sampleEnv ⟨true, []⟩) (str "GET") (str "ticker") none
        none = .ok req ∧ req.Header = []) ∧
    (∃ req, sampleClient.newRequest (sampleEnv ⟨true, []⟩) 17 (str "GET")
        (str "/exchange/orders/opens") none none = .ok req ∧
      http.Header.Values req.Header (str "ACCESS-KEY") = [str "k"] ∧
      http.Header.Values req.Header (str "ACCESS-NONCE") = [str "17"] ∧
      http.Header.Values req.Header (str "ACCESS-SIGNATURE") =
        [(makeSign (str "17") (str "https://coincheck.com/api/exchange/orders/opens") []
          (str "s")).1] ∧
      sampleURLString req.URL = str "https://coincheck.com/api/exchange/orders/opens") := by
  have hpub : sampleClient.newPublicRequest (sampleEnv ⟨true, []⟩) (str "GET") (str "ticker") none
      none = .ok { Method := str "GET",
                   URL := { sampleClient.BaseURL with Path := str "/api/ticker" },
                   Header := [], Body := none, Host := str "coincheck.com" } := by
    rfl
  have hpriv : sampleClient.newRequest (sampleEnv ⟨true, []⟩) 17 (str "GET")
      (str "/exchange/orders/opens") none none =
      .ok { Method := str "GET",
            URL := { sampleClient.BaseURL with Path := str "/api/exchange/orders/opens" },
            Header := [(str "Access-Key", [str "k"]), (str "Access-Nonce", [str "17"]),
              (str "Access-Signature", [(makeSign (str "17")
                (str "https://coincheck.com/api/exchange/orders/opens") [] (str "s")).1])],
            Body := none, Host := str "coincheck.com" } := by
    rfl
  have h := signing_private_never_public sampleClient (sampleEnv ⟨true, []⟩) 17 (str "GET")
    (str "/exchange/orders/opens") none none
  have h2 := signing_private_never_public sampleClient (sampleEnv ⟨true, []⟩) 17 (str "GET")
    (str "ticker") none none
  refine ⟨⟨_, hpub, (h2.1 _ hpub).1⟩, ⟨_, hpriv, ?_⟩⟩
  have h3 := h.2 _ hpriv
  exact ⟨h3.2.1, h3.2.2.1, h3.2.2.2.1, by decide⟩

/-! ## The body and the signature -/

/-- For every body, `newRequest` signs the empty buffer: the body is handed on unread inside
the tee reader, with nothing written to the buffer. -/
theorem newRequest_signs_empty_buffer (c : Client) (env : Env) (now : Int)
    (method pathStr : GoString) (query : Option url.Values) (body : Reader) (req : http.Request)
    (h : c.newRequest env now method pathStr query (some body) = .ok req) :
    http.Header.Values req.Header (str "ACCESS-SIGNATURE") =
      [(makeSign (strconv.FormatInt now) (env.URLString (c.resolveURL pathStr query)) []
        c.Secret).1] ∧
    req.Body = some (Reader.tee body []) := by
  obtain ⟨req0, h0, hreq⟩ := newRequest_ok _ _ _ _ _ _ _ _ h
  obtain ⟨_, hb, _⟩ := NewRequest_ok _ _ _ _ _ h0
  have hv := header_three_values c.Key (strconv.FormatInt now)
    (makeSign (strconv.FormatInt now) (env.URLString (c.resolveURL pathStr query)) []
      c.Secret).1
  rw [hreq]
  exact ⟨hv.2.2, hb⟩

set_option maxRecDepth 100000 in
/-- C3 at the body `a`: the request built for the client with secret `s`, the clock reading 17,
method POST and path `/exchange/orders` carries as ACCESS-SIGNATURE the signature of the empty
body, which is not the signature of the body `a`; the body is in the request unread, and
reading it through the tee reader is what would have filled the buffer. -/
theorem signature_misses_body :
    ∃ req, sampleClient.newRequest (sampleEnv ⟨true, []⟩) 17 (str "POST")
        (str "/exchange/orders") none (some (Reader.bytes (str "a"))) = .ok req ∧
      http.Header.Values req.Header (str "ACCESS-SIGNATURE") =
        [(makeSign (str "17") (str "https://coincheck.com/api/exchange/orders") []
          (str "s")).1] ∧
      (makeSign (str "17") (str "https://coincheck.com/api/exchange/orders") [] (str "s")).1 ≠
        (makeSign (str "17") (str "https://coincheck.com/api/exchange/orders") (str "a")
          (str "s")).1 ∧
      req.Body = some (Reader.tee (Reader.bytes (str "a")) []) ∧
      ((Reader.tee (Reader.bytes (str "a")) []).Read 512).2 = Reader.tee (Reader.bytes []) (str "a") := by
  have hreq : sampleClient.newRequest (sampleEnv ⟨true, []⟩) 17 (str "POST")
      (str "/exchange/orders") none (some (Reader.bytes (str "a"))) =
      .ok { Method := str "POST",
            URL := { sampleClient.BaseURL with Path := str "/api/exchange/orders" },
            Header := [(str "Access-Key", [str "k"]), (str "Access-Nonce", [str "17"]),
              (str "Access-Signature", [(makeSign (str "17")
                (str "https://coincheck.com/api/exchange/orders") [] (str "s")).1])],
            Body := some (Reader.tee (Reader.bytes (str "a")) []),
            Host := str "coincheck.com" } := by
    rfl
  have h := newRequest_signs_empty_buffer _ _ _ _ _ _ _ _ hreq
  exact ⟨_, hreq, h.1, by decide, h.2, by decide⟩

/-! ## The envelope check -/

/-- `OrderHistory` after its request was built, sent and answered, and the answer decoded. -/
theorem OrderHistory_decoded (c : Client) (env : Env) (now : Int)
    (page : Option PaginationRequest) (req : http.Request) (res : http.Response)
    (ret : OrderHistoryResponse) (hreq : c.orderHistoryRequest env now page = .ok req)
    (hdo : env.Do req = .ok res) (hdec : env.decodeOrderHistory res.Body = .ok ret) :
    c.OrderHistory env now page =
      if ret.Error ≠ [] then .error (errors.New ret.Error)
      else if !ret.Success then .error (errors.New (str "unkonwn API error"))
      else .ok ret := by
  unfold Client.OrderHistory
  simp only [hreq, hdo, Client.decodeResponse, hdec]

/-- `SentHistory` after its request was built, sent and answered, and the answer decoded. -/
theorem SentHistory_decoded (c : Client) (env : Env) (now : Int) (currency : GoString)
    (req : http.Request) (res : http.Response) (ret : SentHistoryResponse)
    (hreq : c.newRequest env now (str "GET") (str "/send_money")
      (some [(str "currency", [currency])]) none = .ok req)
    (hdo : env.Do req = .ok res) (hdec : env.decodeSentHistory res.Body = .ok ret) :
    c.SentHistory env now currency =
      if ret.Error ≠ [] then .error (errors.New ret.Error)
      else if !ret.Success then .error (errors.New (str "unkonwn API error"))
      else .ok ret := by
  unfold Client.SentHistory
  simp only [hreq, hdo, Client.decodeResponse, hdec]

/-- `DepositHistory` after its request was built, sent and answered, and the answer decoded. -/
theorem DepositHistory_decoded (c : Client) (env : Env) (now : Int) (currency : GoString)
    (req : http.Request) (res : http.Response) (ret : DepositHistoryResponse)
    (hreq : c.newRequest env now (str "GET") (str "/deposit_money")
      (some [(str "currency", [currency])]) none = .ok req)
    (hdo : env.Do req = .ok res) (hdec : env.decodeDepositHistory res.Body = .ok ret) :
    c.DepositHistory env now currency =
      if ret.Error ≠ [] then .error (errors.New ret.Error)
      else if !ret.Success then .error (errors.New (str "unknown API error"))
      else .ok ret := by
  unfold Client.DepositHistory
  simp only [hreq, hdo, hdec]

/-- The client `New` makes in the sample environment. -/
theorem New_sample (e : APIResponse) : New (sampleEnv e) (str "k") (str "s") = .ok sampleClient :=
  rfl

/-- The three requests are built in the sample environment. -/
theorem sample_requests (e : APIResponse) :
    (∃ req, sampleClient.orderHistoryRequest (sampleEnv e) 17 none = .ok req) ∧
    (∃ req, sampleClient.newRequest (sampleEnv e) 17 (str "GET") (str "/send_money")
      (some [(str "currency", [str "BTC"])]) none = .ok req) ∧
    (∃ req, sampleClient.newRequest (sampleEnv e) 17 (str "GET") (str "/deposit_money")
      (some [(str "currency", [str "BTC"])]) none = .ok req) :=
  ⟨⟨{ Method := str "GET",
      URL := { sampleClient.BaseURL with Path := str "/api/exchange/orders/transactions" },
      Header := [(str "Access-Key", [str "k"]), (str "Access-Nonce", [str "17"]),
        (str "Access-Signature", [(makeSign (str "17")
          (str "https://coincheck.com/api/exchange/orders/transactions") [] (str "s")).1])],
      Body := none, Host := str "coincheck.com" }, rfl⟩,
   ⟨{ Method := str "GET",
      URL := { sampleClient.BaseURL with Path := str "/api/send_money",
                                         RawQuery := str "currency=BTC" },
      Header := [(str "Access-Key", [str "k"]), (str "Access-Nonce", [str "17"]),
        (str "Access-Signature", [(makeSign (str "17")
          (str "https://coincheck.com/api/send_money?currency=BTC") [] (str "s")).1])],
      Body := none, Host := str "coincheck.com" }, rfl⟩,
   ⟨{ Method := str "GET",
      URL := { sampleClient.BaseURL with Path := str "/api/deposit_money",
                                         RawQuery := str "currency=BTC" },
      Header := [(str "Access-Key", [str "k"]), (str "Access-Nonce", [str "17"]),
        (str "Access-Signature", [(makeSign (str "17")
          (str "https://coincheck.com/api/deposit_money?currency=BTC") [] (str "s")).1])],
      Body := none, Host := str "coincheck.com" }, rfl⟩⟩

/-- C4: for `OrderHistory`, `SentHistory` and `DepositHistory`, when the response was decoded
and the error field of its envelope is a non-empty string, the operation returns no payload and
the error whose message is that string, whatever the success flag. -/
theorem envelope_error_returned (c : Client) (env : Env) (now : Int) :
    (∀ page req res ret, c.orderHistoryRequest env now page = .ok req → env.Do req = .ok res →
      env.decodeOrderHistory res.Body = .ok ret → ret.Error ≠ [] →
      c.OrderHistory env now page = .error { msg := ret.Error }) ∧
    (∀ currency req res ret, c.newRequest env now (str "GET") (str "/send_money")
        (some [(str "currency", [currency])]) none = .ok req → env.Do req = .ok res →
      env.decodeSentHistory res.Body = .ok ret → ret.Error ≠ [] →
      c.SentHistory env now currency = .error { msg := ret.Error }) ∧
    (∀ currency req res ret, c.newRequest env now (str "GET") (str "/deposit_money")
        (some [(str "currency", [currency])]) none = .ok req → env.Do req = .ok res →
      env.decodeDepositHistory res.Body = .ok ret → ret.Error ≠ [] →
      c.DepositHistory env now currency = .error { msg := ret.Error }) := by
  refine ⟨?_, ?_, ?_⟩
  · intro page req res ret hreq hdo hdec he
    rw [OrderHistory_decoded c env now page req res ret hreq hdo hdec, if_pos he]
    rfl
  · intro currency req res ret hreq hdo hdec he
    rw [SentHistory_decoded c env now currency req res ret hreq hdo hdec, if_pos he]
    rfl
  · intro currency req res ret hreq hdo hdec he
    rw [DepositHistory_decoded c env now currency req res ret hreq hdo hdec, if_pos he]
    rfl

/-- C4 at a server that answers with success true and the error `invalid authentication`:
each operation returns the error with that message and no payload. -/
theorem envelope_error_returned_witness :
    sampleClient.OrderHistory (sampleEnv ⟨true, str "invalid authentication"⟩) 17 none =
      .error { msg := str "invalid authentication" } ∧
    sampleClient.SentHistory (sampleEnv ⟨true, str "invalid authentication"⟩) 17
      (str "BTC") = .error { msg := str "invalid authentication" } ∧
    sampleClient.DepositHistory (sampleEnv ⟨true, str "invalid authentication"⟩) 17
      (str "BTC") = .error { msg := str "invalid authentication" } := by
  have h := envelope_error_returned sampleClient
    (sampleEnv ⟨true, str "invalid authentication"⟩) 17
  obtain ⟨⟨r1, h1⟩, ⟨r2, h2⟩, ⟨r3, h3⟩⟩ :=
    sample_requests ⟨true, str "invalid authentication"⟩
  exact ⟨h.1 none r1 _ _ h1 rfl rfl (by decide), h.2.1 (str "BTC") r2 _ _ h2 rfl rfl (by decide),
    h.2.2 (str "BTC") r3 _ _ h3 rfl rfl (by decide)⟩

/-- C5: for `OrderHistory`, `SentHistory` and `DepositHistory`, when the response was decoded,
the operation returns the decoded payload exactly when the error field of the envelope is empty
and its success flag is true; otherwise, so with success false and an empty error message, it
returns an error and no payload. -/
theorem payload_iff_envelope_ok (c : Client) (env : Env) (now : Int) :
    (∀ page req res ret, c.orderHistoryRequest env now page = .ok req → env.Do req = .ok res →
      env.decodeOrderHistory res.Body = .ok ret →
      (c.OrderHistory env now page = .ok ret ↔ (ret.Error = [] ∧ ret.Success = true)) ∧
      (¬ (ret.Error = [] ∧ ret.Success = true) →
        ∃ err, c.OrderHistory env now page = .error err)) ∧
    (∀ currency req res ret, c.newRequest env now (str "GET") (str "/send_money")
        (some [(str "currency", [currency])]) none = .ok req → env.Do req = .ok res →
      env.decodeSentHistory res.Body = .ok ret →
      (c.SentHistory env now currency = .ok ret ↔ (ret.Error = [] ∧ ret.Success = true)) ∧
      (¬ (ret.Error = [] ∧ ret.Success = true) →
        ∃ err, c.SentHistory env now currency = .error err)) ∧
    (∀ currency req res ret, c.newRequest env now (str "GET") (str "/deposit_money")
        (some [(str "currency", [currency])]) none = .ok req → env.Do req = .ok res →
      env.decodeDepositHistory res.Body = .ok ret →
      (c.DepositHistory env now currency = .ok ret ↔ (ret.Error = [] ∧ ret.Success = true)) ∧
      (¬ (ret.Error = [] ∧ ret.Success = true) →
        ∃ err, c.DepositHistory env now currency = .error err)) := by
  refine ⟨?_, ?_, ?_⟩
  · intro page req res ret hreq hdo hdec
    rw [OrderHistory_decoded c env now page req res ret hreq hdo hdec]
    by_cases he : ret.Error = []
    · cases hs : ret.Success <;> simp [he]
    · simp [he]
  · intro currency req res ret hreq hdo hdec
    rw [SentHistory_decoded c env now currency req res ret hreq hdo hdec]
    by_cases he : ret.Error = []
    · cases hs : ret.Success <;> simp [he]
    · simp [he]
  · intro currency req res ret hreq hdo hdec
    rw [DepositHistory_decoded c env now currency req res ret hreq hdo hdec]
    by_cases he : ret.Error = []
    · cases hs : ret.Success <;> simp [he]
    · simp [he]

/-- C5 at a server that answers with success true and no error, and at one that answers with
success false and no error: `OrderHistory` returns the payload from the first, an error from
the second; so do `SentHistory` and `DepositHistory`. -/
theorem payload_iff_envelope_ok_witness :
    (sampleClient.OrderHistory (sampleEnv ⟨true, []⟩) 17 none = .ok (sampleOrders ⟨true, []⟩) ∧
      ∃ err, sampleClient.OrderHistory (sampleEnv ⟨false, []⟩) 17 none = .error err) ∧
    (sampleClient.SentHistory (sampleEnv ⟨true, []⟩) 17 (str "BTC") =
        .ok (sampleSends ⟨true, []⟩) ∧
      ∃ err, sampleClient.SentHistory (sampleEnv ⟨false, []⟩) 17 (str "BTC") = .error err) ∧
    (sampleClient.DepositHistory (sampleEnv ⟨true, []⟩) 17 (str "BTC") =
        .ok (sampleDeposits ⟨true, []⟩) ∧
      ∃ err, sampleClient.DepositHistory (sampleEnv ⟨false, []⟩) 17 (str "BTC") = .error err) := by
  have ht := payload_iff_envelope_ok sampleClient (sampleEnv ⟨true, []⟩) 17
  have hf := payload_iff_envelope_ok sampleClient (sampleEnv ⟨false, []⟩) 17
  obtain ⟨⟨r1, h1⟩, ⟨r2, h2⟩, ⟨r3, h3⟩⟩ := sample_requests ⟨true, []⟩
  obtain ⟨⟨q1, g1⟩, ⟨q2, g2⟩, ⟨q3, g3⟩⟩ := sample_requests ⟨false, []⟩
  exact ⟨⟨(ht.1 none r1 _ _ h1 rfl rfl).1.mpr ⟨rfl, rfl⟩,
      (hf.1 none q1 _ _ g1 rfl rfl).2 (by decide)⟩,
    ⟨(ht.2.1 (str "BTC") r2 _ _ h2 rfl rfl).1.mpr ⟨rfl, rfl⟩,
      (hf.2.1 (str "BTC") q2 _ _ g2 rfl rfl).2 (by decide)⟩,
    ⟨(ht.2.2 (str "BTC") r3 _ _ h3 rfl rfl).1.mpr ⟨rfl, rfl⟩,
      (hf.2.2 (str "BTC") q3 _ _ g3 rfl rfl).2 (by decide)⟩⟩

/-- C6 at a server that answers with success false and no error: `OrderHistory` and
`SentHistory` return the error `unkonwn API error`, `DepositHistory` the error
`unknown API error`, and these two messages differ. -/
theorem generic_error_differs :
    sampleClient.OrderHistory (sampleEnv ⟨false, []⟩) 17 none =
      .error { msg := str "unkonwn API error" } ∧
    sampleClient.SentHistory (sampleEnv ⟨false, []⟩) 17 (str "BTC") =
      .error { msg := str "unkonwn API error" } ∧
    sampleClient.DepositHistory (sampleEnv ⟨false, []⟩) 17 (str "BTC") =
      .error { msg := str "unknown API error" } ∧
    str "unkonwn API error" ≠ str "unknown API error" := by
  obtain ⟨⟨q1, g1⟩, ⟨q2, g2⟩, ⟨q3, g3⟩⟩ := sample_requests ⟨false, []⟩
  refine ⟨?_, ?_, ?_, by decide⟩
  · rw [OrderHistory_decoded _ _ _ _ q1 _ _ g1 rfl rfl]
    rfl
  · rw [SentHistory_decoded _ _ _ _ q2 _ _ g2 rfl rfl]
    rfl
  · rw [DepositHistory_decoded _ _ _ _ q3 _ _ g3 rfl rfl]
    rfl

/-! ## Pagination parameters -/

theorem pagination_keys_ne :
    str "limit" ≠ str "order" ∧ str "limit" ≠ str "starting_after" ∧
    str "limit" ≠ str "ending_before" ∧ str "order" ≠ str "starting_after" ∧
    str "order" ≠ str "ending_before" ∧ str "starting_after" ≠ str "ending_before" := by
  decide

/-- The map `AddValues` makes from the empty map: one entry per field that is set, in the order
of the four tests. -/
theorem AddValues_empty (p : PaginationRequest) :
    PaginationRequest.AddValues (some p) [] =
      (if p.Limit > 0 then [(str "limit", [strconv.FormatInt p.Limit])] else []) ++
      (if p.Order ≠ [] then [(str "order", [p.Order])] else []) ++
      (if p.StartingAfter ≠ 0 then
        [(str "starting_after", [strconv.FormatInt p.StartingAfter])] else []) ++
      (if p.EndingBefore ≠ 0 then
        [(str "ending_before", [strconv.FormatInt p.EndingBefore])] else []) := by
  obtain ⟨h1, h2, h3, h4, h5, h6⟩ := pagination_keys_ne
  unfold PaginationRequest.AddValues
  by_cases a : p.Limit > 0 <;> by_cases b : p.Order = [] <;>
    by_cases c : p.StartingAfter = 0 <;> by_cases d : p.EndingBefore = 0 <;>
    simp only [a, b, c, d, ne_eq, ite_not, if_true, if_false, url.Values.Add, if_neg h1,
      if_neg h2, if_neg h3, if_neg h4, if_neg h5, if_neg h6, List.nil_append, List.append_nil,
      List.cons_append]

/-- C7: `AddValues` of a non-nil request on an empty set of values gives exactly the keys
`limit` (iff Limit > 0), `order` (iff Order is not empty), `starting_after` (iff StartingAfter
is not 0) and `ending_before` (iff EndingBefore is not 0), each once and with a single value:
the decimal rendering of the number, which reads back as the number, or the order string. A
request with limit 10, order `desc` and no cursors encodes to `limit=10&order=desc`. -/
theorem AddValues_keys (p : PaginationRequest) :
    (∀ k, k ∈ url.Values.keys (PaginationRequest.AddValues (some p) []) ↔
      (k = str "limit" ∧ p.Limit > 0) ∨ (k = str "order" ∧ p.Order ≠ []) ∨
      (k = str "starting_after" ∧ p.StartingAfter ≠ 0) ∨
      (k = str "ending_before" ∧ p.EndingBefore ≠ 0)) ∧
    (url.Values.keys (PaginationRequest.AddValues (some p) [])).Nodup ∧
    url.Values.lookup (PaginationRequest.AddValues (some p) []) (str "limit") =
      (if p.Limit > 0 then [strconv.FormatInt p.Limit] else []) ∧
    url.Values.lookup (PaginationRequest.AddValues (some p) []) (str "order") =
      (if p.Order ≠ [] then [p.Order] else []) ∧
    url.Values.lookup (PaginationRequest.AddValues (some p) []) (str "starting_after") =
      (if p.StartingAfter ≠ 0 then [strconv.FormatInt p.StartingAfter] else []) ∧
    url.Values.lookup (PaginationRequest.AddValues (some p) []) (str "ending_before") =
      (if p.EndingBefore ≠ 0 then [strconv.FormatInt p.EndingBefore] else []) ∧
    strconv.readDecimal (strconv.FormatInt p.Limit) = p.Limit ∧
    strconv.readDecimal (strconv.FormatInt p.StartingAfter) = p.StartingAfter ∧
    strconv.readDecimal (strconv.FormatInt p.EndingBefore) = p.EndingBefore ∧
    url.Values.Encode (PaginationRequest.AddValues
      (some { Limit := 10, Order := str "desc", StartingAfter := 0, EndingBefore := 0 }) []) =
      str "limit=10&order=desc" := by
  obtain ⟨h1, h2, h3, h4, h5, h6⟩ := pagination_keys_ne
  rw [AddValues_empty]
  refine ⟨?_, ?_, ?_, ?_, ?_, ?_, strconv.readDecimal_FormatInt _,
    strconv.readDecimal_FormatInt _, strconv.readDecimal_FormatInt _, by decide⟩
  · intro k
    by_cases a : p.Limit > 0 <;> by_cases b : p.Order = [] <;>
      by_cases c : p.StartingAfter = 0 <;> by_cases d : p.EndingBefore = 0 <;>
      simp [a, b, c, d, url.Values.keys]
  · by_cases a : p.Limit > 0 <;> by_cases b : p.Order = [] <;>
      by_cases c : p.StartingAfter = 0 <;> by_cases d : p.EndingBefore = 0 <;>
      simp [a, b, c, d, url.Values.keys, h1, h2, h3, h4, h5, h6]
  · by_cases a : p.Limit > 0 <;> by_cases b : p.Order = [] <;>
      by_cases c : p.StartingAfter = 0 <;> by_cases d : p.EndingBefore = 0 <;>
      simp [a, b, c, d, url.Values.lookup, h1, h2, h3, h4, h5, h6, Ne.symm]
  · by_cases a : p.Limit > 0 <;> by_cases b : p.Order = [] <;>
      by_cases c : p.StartingAfter = 0 <;> by_cases d : p.EndingBefore = 0 <;>
      simp [a, b, c, d, url.Values.lookup, h1, h2, h3, h4, h5, h6, Ne.symm]
  · by_cases a : p.Limit > 0 <;> by_cases b : p.Order = [] <;>
      by_cases c : p.StartingAfter = 0 <;> by_cases d : p.EndingBefore = 0 <;>
      simp [a, b, c, d, url.Values.lookup, h1, h2, h3, h4, h5, h6, Ne.symm]
  · by_cases a : p.Limit > 0 <;> by_cases b : p.Order = [] <;>
      by_cases c : p.StartingAfter = 0 <;> by_cases d : p.EndingBefore = 0 <;>
      simp [a, b, c, d, url.Values.lookup, h1, h2, h3, h4, h5, h6, Ne.symm]

/-! ## The endpoint of the order history -/

/-- C8: with a nil pagination request `AddValues` leaves the values unchanged and
`OrderHistory` requests `/exchange/orders/transactions`, joined to the path of the base URL,
with the empty query; with any non-nil pagination request, also one whose fields are all zero,
it requests `/exchange/orders/transactions_pagination`, with the values of `AddValues` as the
query. A request that is built has the URL parsed from the text of that resolved URL. -/
theorem orderHistory_endpoint (c : Client) (env : Env) (now : Int) :
    (∀ v, PaginationRequest.AddValues none v = v) ∧
    c.orderHistoryRequest env now none =
      c.newRequest env now (str "GET") (str "/exchange/orders/transactions") (some []) none ∧
    (c.resolveURL (str "/exchange/orders/transactions") (some [])).Path =
      path.Join [c.BaseURL.Path, str "/exchange/orders/transactions"] ∧
    (c.resolveURL (str "/exchange/orders/transactions") (some [])).RawQuery = [] ∧
    (∀ req, c.orderHistoryRequest env now none = .ok req →
      ∃ u, env.Parse (env.URLString
          (c.resolveURL (str "/exchange/orders/transactions") (some []))) = .ok u ∧
        req.URL = { u with Host := http.removeEmptyPort u.Host }) ∧
    (∀ p, c.orderHistoryRequest env now (some p) =
      c.newRequest env now (str "GET") (str "/exchange/orders/transactions_pagination")
        (some (PaginationRequest.AddValues (some p) [])) none) ∧
    (∀ p, (c.resolveURL (str "/exchange/orders/transactions_pagination")
        (some (PaginationRequest.AddValues (some p) []))).Path =
      path.Join [c.BaseURL.Path, str "/exchange/orders/transactions_pagination"]) ∧
    (∀ p req, c.orderHistoryRequest env now (some p) = .ok req →
      ∃ u, env.Parse (env.URLString
          (c.resolveURL (str "/exchange/orders/transactions_pagination")
            (some (PaginationRequest.AddValues (some p) [])))) = .ok u ∧
        req.URL = { u with Host := http.removeEmptyPort u.Host }) ∧
    c.orderHistoryRequest env now
        (some { Limit := 0, Order := [], StartingAfter := 0, EndingBefore := 0 }) =
      c.newRequest env now (str "GET") (str "/exchange/orders/transactions_pagination")
        (some []) none ∧
    path.Join [str "/api", str "/exchange/orders/transactions"] =
      str "/api/exchange/orders/transactions" ∧
    path.Join [str "/api", str "/exchange/orders/transactions_pagination"] =
      str "/api/exchange/orders/transactions_pagination" := by
  refine ⟨fun _ => rfl, rfl, rfl, rfl, ?_, fun _ => rfl, fun _ => rfl, ?_, rfl, by decide,
    by decide⟩
  · intro req h
    have h' : c.newRequest env now (str "GET") (str "/exchange/orders/transactions") (some [])
        none = .ok req := h
    obtain ⟨req0, h0, hreq⟩ := newRequest_ok _ _ _ _ _ _ _ _ h'
    obtain ⟨_, _, u, hu, hurl⟩ := NewRequest_ok _ _ _ _ _ h0
    exact ⟨u, hu, by rw [hreq]; exact hurl⟩
  · intro p req h
    have h' : c.newRequest env now (str "GET") (str "/exchange/orders/transactions_pagination")
        (some (PaginationRequest.AddValues (some p) [])) none = .ok req := h
    obtain ⟨req0, h0, hreq⟩ := newRequest_ok _ _ _ _ _ _ _ _ h'
    obtain ⟨_, _, u, hu, hurl⟩ := NewRequest_ok _ _ _ _ _ h0
    exact ⟨u, hu, by rw [hreq]; exact hurl⟩

/-- C8 at the client of `New`: without a pagination request the URL of the request is
`https://coincheck.com/api/exchange/orders/transactions`, with no query; with the pagination
request whose fields are all zero it is
`https://coincheck.com/api/exchange/orders/transactions_pagination`. -/
theorem orderHistory_endpoint_witness :
    (∃ req, sampleClient.orderHistoryRequest (sampleEnv ⟨true, []⟩) 17 none = .ok req ∧
      sampleURLString req.URL = str "https://coincheck.com/api/exchange/orders/transactions" ∧
      req.URL.RawQuery = []) ∧
    (∃ req, sampleClient.orderHistoryRequest (sampleEnv ⟨true, []⟩) 17
        (some { Limit := 0, Order := [], StartingAfter := 0, EndingBefore := 0 }) = .ok req ∧
      sampleURLString req.URL =
        str "https://coincheck.com/api/exchange/orders/transactions_pagination") := by
  have h := orderHistory_endpoint sampleClient (sampleEnv ⟨true, []⟩) 17
  obtain ⟨_, h2, _, _, h5, h6, _, h8, _, _, _⟩ := h
  have g1 : sampleClient.orderHistoryRequest (sampleEnv ⟨true, []⟩) 17 none =
      .ok { Method := str "GET",
            URL := { sampleClient.BaseURL with Path := str "/api/exchange/orders/transactions" },
            Header := [(str "Access-Key", [str "k"]), (str "Access-Nonce", [str "17"]),
              (str "Access-Signature", [(makeSign (str "17")
                (str "https://coincheck.com/api/exchange/orders/transactions") []
                (str "s")).1])],
            Body := none, Host := str "coincheck.com" } := by
    rw [h2]
    rfl
  have g2 : sampleClient.orderHistoryRequest (sampleEnv ⟨true, []⟩) 17
      (some { Limit := 0, Order := [], StartingAfter := 0, EndingBefore := 0 }) =
      .ok { Method := str "GET",
            URL := { sampleClient.BaseURL with
                     Path := str "/api/exchange/orders/transactions_pagination" },
            Header := [(str "Access-Key", [str "k"]), (str "Access-Nonce", [str "17"]),
              (str "Access-Signature", [(makeSign (str "17")
                (str "https://coincheck.com/api/exchange/orders/transactions_pagination") []
                (str "s")).1])],
            Body := none, Host := str "coincheck.com" } := by
    rw [h6]
    rfl
  exact ⟨⟨_, g1, by decide, rfl⟩, ⟨_, g2, by decide⟩⟩

/-! ## Nonces -/

/-- The nonce header of a request `newRequest` built at the clock reading `now`. -/
theorem newRequest_nonce (c : Client) (env : Env) (now : Int) (method pathStr : GoString)
    (query : Option url.Values) (body : Option Reader) (req : http.Request)
    (h : c.newRequest env now method pathStr query body = .ok req) :
    http.Header.Values req.Header (str "ACCESS-NONCE") = [strconv.FormatInt now] := by
  obtain ⟨req0, _, hreq⟩ := newRequest_ok _ _ _ _ _ _ _ _ h
  rw [hreq]
  exact (header_three_values _ _ _).2.1

/-- C9, as stated, fails: two private requests built one after the other while the clock
reads 1730000000000000000 nanoseconds both times carry the same ACCESS-NONCE, so the later one
is not strictly greater. -/
theorem nonce_repeats_when_clock_repeats :
    ∃ req1 req2,
      sampleClient.newRequest (sampleEnv ⟨true, []⟩) 1730000000000000000 (str "GET")
        (str "/exchange/orders/opens") none none = .ok req1 ∧
      sampleClient.newRequest (sampleEnv ⟨true, []⟩) 1730000000000000000 (str "GET")
        (str "/exchange/orders/transactions") (some []) none = .ok req2 ∧
      http.Header.Values req1.Header (str "ACCESS-NONCE") = [str "1730000000000000000"] ∧
      http.Header.Values req2.Header (str "ACCESS-NONCE") = [str "1730000000000000000"] ∧
      ¬ (strconv.readDecimal (str "1730000000000000000") <
        strconv.readDecimal (str "1730000000000000000")) := by
  refine ⟨{ Method := str "GET",
            URL := { sampleClient.BaseURL with Path := str "/api/exchange/orders/opens" },
            Header := [(str "Access-Key", [str "k"]),
              (str "Access-Nonce", [strconv.FormatInt 1730000000000000000]),
              (str "Access-Signature", [(makeSign (strconv.FormatInt 1730000000000000000)
                (str "https://coincheck.com/api/exchange/orders/opens") [] (str "s")).1])],
            Body := none, Host := str "coincheck.com" },
          { Method := str "GET",
            URL := { sampleClient.BaseURL with Path := str "/api/exchange/orders/transactions" },
            Header := [(str "Access-Key", [str "k"]),
              (str "Access-Nonce", [strconv.FormatInt 1730000000000000000]),
              (str "Access-Signature", [(makeSign (strconv.FormatInt 1730000000000000000)
                (str "https://coincheck.com/api/exchange/orders/transactions") [] (str "s")).1])],
            Body := none, Host := str "coincheck.com" }, rfl, rfl, by decide, by decide,
          Int.lt_irrefl _⟩

/-- C9, amended: when the clock reading at the later request is strictly greater than at the
earlier one, the later ACCESS-NONCE, read as a decimal integer, is strictly greater than the
earlier one; each nonce is the decimal rendering of the clock reading taken when its request
is built, and reads back as that reading. -/
theorem nonce_increases_with_clock (c : Client) (env : Env) (t1 t2 : Int)
    (method1 path1 : GoString) (query1 : Option url.Values) (body1 : Option Reader)
    (method2 path2 : GoString) (query2 : Option url.Values) (body2 : Option Reader)
    (req1 req2 : http.Request)
    (h1 : c.newRequest env t1 method1 path1 query1 body1 = .ok req1)
    (h2 : c.newRequest env t2 method2 path2 query2 body2 = .ok req2)
    (ht : t1 < t2) :
    ∃ n1 n2, http.Header.Values req1.Header (str "ACCESS-NONCE") = [n1] ∧
      http.Header.Values req2.Header (str "ACCESS-NONCE") = [n2] ∧
      n1 = strconv.FormatInt t1 ∧ n2 = strconv.FormatInt t2 ∧
      strconv.readDecimal n1 = t1 ∧ strconv.readDecimal n2 = t2 ∧
      strconv.readDecimal n1 < strconv.readDecimal n2 := by
  refine ⟨_, _, newRequest_nonce _ _ _ _ _ _ _ _ h1, newRequest_nonce _ _ _ _ _ _ _ _ h2, rfl,
    rfl, strconv.readDecimal_FormatInt _, strconv.readDecimal_FormatInt _, ?_⟩
  rw [strconv.readDecimal_FormatInt, strconv.readDecimal_FormatInt]
  exact ht

/-- C9, amended, at the clock readings 1730000000000000000 and 1730000000000000001: the
nonces are these numbers, the later one greater. -/
theorem nonce_increases_with_clock_witness :
    ∃ n1 n2, n1 = str "1730000000000000000" ∧ n2 = str "1730000000000000001" ∧
      strconv.readDecimal n1 < strconv.readDecimal n2 := by
  have h1 : sampleClient.newRequest (sampleEnv ⟨true, []⟩) 1730000000000000000 (str "GET")
      (str "/exchange/orders/opens") none none =
      .ok { Method := str "GET",
            URL := { sampleClient.BaseURL with Path := str "/api/exchange/orders/opens" },
            Header := [(str "Access-Key", [str "k"]),
              (str "Access-Nonce", [strconv.FormatInt 1730000000000000000]),
              (str "Access-Signature", [(makeSign (strconv.FormatInt 1730000000000000000)
                (str "https://coincheck.com/api/exchange/orders/opens") [] (str "s")).1])],
            Body := none, Host := str "coincheck.com" } := rfl
  have h2 : sampleClient.newRequest (sampleEnv ⟨true, []⟩) 1730000000000000001 (str "GET")
      (str "/exchange/orders/opens") none none =
      .ok { Method := str "GET",
            URL := { sampleClient.BaseURL with Path := str "/api/exchange/orders/opens" },
            Header := [(str "Access-Key", [str "k"]),
              (str "Access-Nonce", [strconv.FormatInt 1730000000000000001]),
              (str "Access-Signature", [(makeSign (strconv.FormatInt 1730000000000000001)
                (str "https://coincheck.com/api/exchange/orders/opens") [] (str "s")).1])],
            Body := none, Host := str "coincheck.com" } := rfl
  obtain ⟨n1, n2, _, _, e1, e2, _, _, hlt⟩ :=
    nonce_increases_with_clock _ _ _ _ _ _ _ _ _ _ _ _ _ _ h1 h2 (by decide)
  exact ⟨n1, n2, by rw [e1]; decide, by rw [e2]; decide, hlt⟩

end Coincheck
